import Mathlib

/-!
Verification development for the directory-scraper crawl-and-extraction core.

The Python source (src/scraper/*.py) is shallowly embedded: pure functions
become Lean functions on `List Char` / `String`, the DOM becomes an inductive
tree, stateful orchestration becomes explicit state passing, and fallible
code returns `Option`/`Except`.  Machine-level details that no claim depends
on (sha256 digests, the network) are abstracted as parameters, which only
strengthens the universally quantified statements proved about them.

Unicode caveat: Python's `str.lower`, `str.strip`, `str.isdigit` and the
regex classes `\w`/`\s`/`\d` are unicode-aware; the embedding models their
ASCII behaviour (`Char.toLower`, `Char.isWhitespace`, `Char.isDigit`,
alphanumerics plus underscore), which coincides with Python on the ASCII
inputs all theorems and witnesses below use.
-/

namespace Scraper

/-! ## Python string primitives (on `List Char`) -/

/-- Model of Python `str.lower()` (ASCII). -/
def pyLower (l : List Char) : List Char := l.map Char.toLower

/-- Leading-whitespace strip, one half of Python `str.strip()`. -/
def dropLeadingWs (l : List Char) : List Char := l.dropWhile Char.isWhitespace

/-- Trailing-whitespace strip, the other half of Python `str.strip()`. -/
def dropTrailingWs (l : List Char) : List Char :=
  (l.reverse.dropWhile Char.isWhitespace).reverse

/-- Model of Python `str.strip()` (no arguments): strip both ends. -/
def pyStrip (l : List Char) : List Char := dropTrailingWs (dropLeadingWs l)

/-- Model of Python `str.rstrip(c)` for a single strip character `c`. -/
def pyRstrip (c : Char) (l : List Char) : List Char :=
  (l.reverse.dropWhile (· = c)).reverse

/-- Splits a list at the first occurrence of `c`: returns the prefix before
`c` and, when `c` occurs, the suffix after it (the delimiter dropped).
This models both Python `s.split(c, 1)` and `s.find(c)`-then-slice idioms. -/
def splitAtFirst (c : Char) : List Char → List Char × Option (List Char)
  | [] => ([], none)
  | x :: xs =>
    if x = c then ([], some xs)
    else
      let r := splitAtFirst c xs
      (x :: r.1, r.2)

/-- Model of Python `str.isdigit()` on ASCII: non-empty and all digits. -/
def pyIsDigit (l : List Char) : Bool := !l.isEmpty && l.all Char.isDigit

/-- Boolean substring test (`needle in haystack` in Python). -/
def containsSub (needle : List Char) : List Char → Bool
  | [] => needle.isEmpty
  | c :: rest => needle.isPrefixOf (c :: rest) || containsSub needle rest

/-- Python `"sep".join(parts)` for a one-character separator. -/
def joinWith (sep : Char) : List (List Char) → List Char
  | [] => []
  | [p] => p
  | p :: q :: rest => p ++ sep :: joinWith sep (q :: rest)

/-! ## urllib.parse model

Embeds CPython's `urlsplit` / `urlparse` / `urlunsplit` / `urlunparse`
(Python 3.10+ semantics) far enough for every URL the claims touch.
Omitted relative to CPython: percent and plus decoding (not used by the
source's comparisons) and the `ValueError` raised on unbalanced brackets
in a netloc (no claim involves IPv6 literals). -/

/-- Leading strip of C0 controls and space performed by CPython `urlsplit`
(`_WHATWG_C0_CONTROL_OR_SPACE`). -/
def lstripC0 (l : List Char) : List Char := l.dropWhile (fun c => c.toNat ≤ 32)

/-- Characters CPython removes from a URL before splitting
(`_UNSAFE_URL_BYTES_TO_REMOVE` = tab, carriage return, newline). -/
def removeUnsafe (l : List Char) : List Char :=
  l.filter (fun c => !(c = '\t' || c = '\r' || c = '\n'))

/-- Valid scheme characters per CPython (`scheme_chars`). -/
def isSchemeChar (c : Char) : Bool :=
  c.isAlpha || c.isDigit || c = '+' || c = '-' || c = '.'

/-- CPython scheme validity: non-empty, starts with an ASCII letter, and
every character is a scheme character. -/
def validScheme : List Char → Bool
  | [] => false
  | c :: cs => c.isAlpha && (c :: cs).all isSchemeChar

/-- Scheme split step of `urlsplit`: lower-cases an accepted scheme and
returns it with the rest; otherwise the whole input is left as the rest. -/
def splitScheme (l : List Char) : List Char × List Char :=
  match splitAtFirst ':' l with
  | (pre, some post) => if validScheme pre then (pyLower pre, post) else ([], l)
  | (_, none) => ([], l)

/-- Does the list start with `//` (netloc marker)? -/
def startsWithDoubleSlash : List Char → Bool
  | c1 :: c2 :: _ => c1 = '/' && c2 = '/'
  | _ => false

/-- Is the character a netloc delimiter (`/`, `?` or `#`)? -/
def isNetlocDelim (c : Char) : Bool := c = '/' || c = '?' || c = '#'

/-- Netloc split step of `urlsplit` (`_splitnetloc`): after `//`, the netloc
runs up to the first of `/?#`; the delimiter stays in the rest. -/
def splitNetloc (l : List Char) : List Char × List Char :=
  if startsWithDoubleSlash l then
    let l2 := l.drop 2
    (l2.takeWhile (fun c => !isNetlocDelim c), l2.dropWhile (fun c => !isNetlocDelim c))
  else ([], l)

/-- Result type of the `urlsplit` model. -/
structure UrlSplitResult where
  scheme : List Char
  netloc : List Char
  path : List Char
  query : List Char
  fragment : List Char
deriving Repr, DecidableEq

/-- Fragment split step of `urlsplit`: `url.split('#', 1)` when a `#` is
present, no change otherwise. -/
def splitFragment (l : List Char) : List Char × List Char :=
  ((splitAtFirst '#' l).1, ((splitAtFirst '#' l).2).getD [])

/-- Query split step of `urlsplit`: `url.split('?', 1)` when a `?` is
present, no change otherwise. -/
def splitQuery (l : List Char) : List Char × List Char :=
  ((splitAtFirst '?' l).1, ((splitAtFirst '?' l).2).getD [])

/-- Model of CPython `urllib.parse.urlsplit` (with `allow_fragments=True`,
Python 3.11 semantics). -/
def pyUrlsplit (url : List Char) : UrlSplitResult :=
  let u := removeUnsafe (lstripC0 url)
  let s := splitScheme u
  let n := splitNetloc s.2
  let f := splitFragment n.2
  let q := splitQuery f.1
  ⟨s.1, n.1, q.1, q.2, f.2⟩

/-- Schemes for which CPython `urlparse` splits `;params` off the path
(`uses_params`, the empty scheme included). -/
def usesParams : List (List Char) :=
  [[], "ftp".data, "hdl".data, "prospero".data, "http".data, "imap".data,
   "https".data, "shttp".data, "rtsp".data, "rtsps".data, "rtspu".data,
   "sip".data, "sips".data, "mms".data, "sftp".data, "tel".data]

/-- Schemes CPython `urlunsplit` rebuilds with a `//` authority marker
(`uses_netloc`; the empty entry is irrelevant there because the condition
also requires a non-empty scheme). -/
def usesNetloc : List (List Char) :=
  [[], "ftp".data, "http".data, "gopher".data, "nntp".data, "telnet".data,
   "imap".data, "wais".data, "file".data, "mms".data, "https".data,
   "shttp".data, "snews".data, "prospero".data, "rtsp".data, "rtsps".data,
   "rtspu".data, "rsync".data, "svn".data, "svn+ssh".data, "sftp".data,
   "nfs".data, "git".data, "git+ssh".data, "ws".data, "wss".data]

/-- Splits a path with no `/` at its first `;` (the else-branch of CPython
`_splitparams`); the caller guarantees a `;` is present. -/
def splitParamsNoSlash (path : List Char) : List Char × List Char :=
  match splitAtFirst ';' path with
  | (a, some b) => (a, b)
  | (a, none) => (a, [])

/-- Model of CPython `_splitparams`: params are split at the first `;` of the
last path segment (after the last `/`), or of the whole path when it has no
`/`.  Only called when `;` occurs in the path. -/
def splitParams (path : List Char) : List Char × List Char :=
  if '/' ∈ path then
    -- search for ';' only from the position of the last '/'
    let revSeg := path.reverse.takeWhile (· ≠ '/')
    let revPre := path.reverse.dropWhile (· ≠ '/')
    let seg := revSeg.reverse
    let pre := revPre.reverse
    match splitAtFirst ';' seg with
    | (a, some b) => (pre ++ a, b)
    | (_, none) => (path, [])
  else splitParamsNoSlash path

/-- Result type of the `urlparse` model (adds `params` to `urlsplit`). -/
structure UrlParseResult where
  scheme : List Char
  netloc : List Char
  path : List Char
  params : List Char
  query : List Char
  fragment : List Char
deriving Repr, DecidableEq

/-- Model of CPython `urllib.parse.urlparse`. -/
def pyUrlparse (url : List Char) : UrlParseResult :=
  let s := pyUrlsplit url
  if s.scheme ∈ usesParams ∧ ';' ∈ s.path then
    let pp := splitParams s.path
    ⟨s.scheme, s.netloc, pp.1, pp.2, s.query, s.fragment⟩
  else ⟨s.scheme, s.netloc, s.path, [], s.query, s.fragment⟩

/-- Model of CPython `urllib.parse.urlunsplit` (Python 3.11 semantics: the
authority marker is added for a non-empty netloc, or for a non-empty scheme
of `uses_netloc` when the path does not already start with `//`). -/
def pyUrlunsplit (scheme netloc url query fragment : List Char) : List Char :=
  let url :=
    if !netloc.isEmpty ||
        (!scheme.isEmpty && scheme ∈ usesNetloc && !startsWithDoubleSlash url) then
      let url := if !url.isEmpty && url.head? ≠ some '/' then '/' :: url else url
      '/' :: '/' :: (netloc ++ url)
    else url
  let url := if !scheme.isEmpty then scheme ++ ':' :: url else url
  let url := if !query.isEmpty then url ++ '?' :: query else url
  if !fragment.isEmpty then url ++ '#' :: fragment else url

/-- Model of CPython `urllib.parse.urlunparse`. -/
def pyUrlunparse (scheme netloc path params query fragment : List Char) : List Char :=
  if !params.isEmpty then
    pyUrlunsplit scheme netloc (path ++ ';' :: params) query fragment
  else pyUrlunsplit scheme netloc path query fragment

/-! ## The two URL normalizers of the repository -/

namespace Models

/-- Embedding of `models.normalize_url` (src/scraper/models.py):
lower-case and strip the URL, parse it, rebuild it with the fragment
removed and all trailing slashes of the path collapsed (`path.rstrip("/")
or "/"`). -/
def normalize_url (url : List Char) : List Char :=
  let parsed := pyUrlparse (pyStrip (pyLower url))
  let path := pyRstrip '/' parsed.path
  let path := if path.isEmpty then ['/'] else path
  pyUrlunparse parsed.scheme parsed.netloc path parsed.params parsed.query []

/-- Embedding of `PageTask.set_task_id` (src/scraper/models.py): the task id
is a content hash (sha256 hex digest in the source) of the normalized URL.
The digest function is abstracted as the parameter `hash`; every identity
proved below holds for any such function, in particular for sha256. -/
def task_id (hash : List Char → List Char) (url : List Char) : List Char :=
  hash (normalize_url url)

end Models

namespace Utils

/-- Embedding of `utils.normalize_url` (src/scraper/utils.py): strip and
lower-case, drop everything from the first `#`, and—only when the parsed
path is a non-root slash-terminated path—right-strip slashes from the whole
URL string. -/
def normalize_url (url : List Char) : List Char :=
  let url := pyLower (pyStrip url)
  let url := (splitAtFirst '#' url).1
  let parsed := pyUrlparse url
  if !parsed.path.isEmpty && parsed.path ≠ ['/'] && parsed.path.getLast? = some '/' then
    pyRstrip '/' url
  else url

end Utils

/-! ## HTML document model

The DOM produced by `selectolax.parser.HTMLParser` is embedded as a tree of
elements (tag, attributes, children) and text nodes.  `css_first` / `css`
are modelled for exactly the selector forms the source uses, matching in
document (pre-)order as selectolax does.  A mutual forest type keeps all
recursion structural so that every function evaluates inside the kernel. -/

mutual
inductive HNode where
  | elem (tag : List Char) (attrs : List (List Char × List Char)) (children : HForest)
  | text (s : List Char)
inductive HForest where
  | nil
  | cons (n : HNode) (rest : HForest)
end

/-- Builds a forest from a list of nodes (concrete-tree convenience). -/
def hforest : List HNode → HForest
  | [] => .nil
  | n :: r => .cons n (hforest r)

mutual
/-- Model of selectolax `node.text()` (deep, empty separator): all text in
the subtree in document order. -/
def textContent : HNode → List Char
  | .elem _ _ ch => textContentF ch
  | .text s => s
def textContentF : HForest → List Char
  | .nil => []
  | .cons n r => textContent n ++ textContentF r
end

/-- Attributes of an element node (empty for a text node). -/
def attrsOf : HNode → List (List Char × List Char)
  | .elem _ a _ => a
  | .text _ => []

/-- First-match attribute lookup, modelling selectolax `node.attributes.get`
(attribute keys are unique in a parsed document). -/
def getAttr : List (List Char × List Char) → List Char → Option (List Char)
  | [], _ => none
  | (k, v) :: rest, key => if k = key then some v else getAttr rest key

/-- Whitespace-separated tokens of an attribute value (for `.class` selector
matching). -/
def splitWsTokens (l : List Char) : List (List Char) :=
  (l.foldr (fun c acc =>
      if c.isWhitespace then [] :: acc
      else match acc with
        | [] => [[c]]
        | w :: rest => (c :: w) :: rest) []).filter (fun w => !w.isEmpty)

/-- The CSS selector forms used by the source files. -/
inductive Sel where
  | tag (t : List Char)
  | attrEq (key val : List Char)
  | tagAttrEq (t key val : List Char)
  | attrSub (key sub : List Char)
  | tagAttrPrefix (t key pre : List Char)
  | classTok (c : List Char)
  | idEq (i : List Char)
  | tagContainsText (t sub : List Char)

/-- Does the element node match the selector (text nodes never match)? -/
def matchesSel (s : Sel) (n : HNode) : Bool :=
  match n with
  | .text _ => false
  | .elem t attrs _ =>
    match s with
    | .tag t2 => t == t2
    | .attrEq k v => getAttr attrs k == some v
    | .tagAttrEq t2 k v => t == t2 && getAttr attrs k == some v
    | .attrSub k sub =>
      match getAttr attrs k with
      | some v => containsSub sub v
      | none => false
    | .tagAttrPrefix t2 k pre =>
      t == t2 &&
        (match getAttr attrs k with
         | some v => pre.isPrefixOf v
         | none => false)
    | .classTok c =>
      match getAttr attrs "class".data with
      | some v => (splitWsTokens v).contains c
      | none => false
    | .idEq i => getAttr attrs "id".data == some i
    | .tagContainsText t2 sub => t == t2 && containsSub sub (textContent n)

mutual
/-- Model of `css_first`: first matching node in document (pre-)order. -/
def cssFirst (s : Sel) : HNode → Option HNode
  | .text str => if matchesSel s (.text str) then some (.text str) else none
  | .elem t a ch =>
    if matchesSel s (.elem t a ch) then some (.elem t a ch) else cssFirstF s ch
def cssFirstF (s : Sel) : HForest → Option HNode
  | .nil => none
  | .cons n r =>
    match cssFirst s n with
    | some m => some m
    | none => cssFirstF s r
end

mutual
/-- Model of `css`: all matching nodes in document (pre-)order. -/
def cssAll (s : Sel) : HNode → List HNode
  | .text str => if matchesSel s (.text str) then [.text str] else []
  | .elem t a ch =>
    if matchesSel s (.elem t a ch) then .elem t a ch :: cssAllF s ch else cssAllF s ch
def cssAllF (s : Sel) : HForest → List HNode
  | .nil => []
  | .cons n r => cssAll s n ++ cssAllF s r
end

/-! ## utils.clean_text and the regex scanners -/

/-- Result of `re.sub(r'\s+', ' ', text)`: every maximal whitespace run
becomes a single space. -/
def collapseWs : List Char → List Char
  | [] => []
  | [c] => if c.isWhitespace then [' '] else [c]
  | c1 :: c2 :: rest =>
    if c1.isWhitespace && c2.isWhitespace then collapseWs (c2 :: rest)
    else (if c1.isWhitespace then ' ' else c1) :: collapseWs (c2 :: rest)

/-- Characters kept by `re.sub(r'[^\w\s@.,;:!?()\-]', '', text)` (ASCII
reading of the word class). -/
def isCleanKeep (c : Char) : Bool :=
  c.isAlphanum || c = '_' || c.isWhitespace ||
    ['@', '.', ',', ';', ':', '!', '?', '(', ')', '-'].contains c

/-- Embedding of `utils.clean_text`: collapse whitespace runs, drop special
characters, strip. -/
def clean_text (text : List Char) : List Char :=
  if text.isEmpty then []
  else pyStrip ((collapseWs text).filter isCleanKeep)

/-- Word character for regex `\b` (ASCII `\w`). -/
def isWordChar (c : Char) : Bool := c.isAlphanum || c = '_'

/-- Regular-expression syntax covering the patterns the source compiles:
single-character classes, concatenation, greedy `?`, greedy bounded and
unbounded repetition, and the word boundary `\b`. -/
inductive Rx where
  | cls (p : Char → Bool)
  | seq (a b : Rx)
  | opt (a : Rx)
  | rep (min max : Nat) (a : Rx)
  | atLeast (min : Nat) (a : Rx)
  | wordB

/-- Word-ness of the character just before offset `n` of `l` (the previous
context `pw` when `n = 0`), used for `\b` after consuming `n` characters. -/
def pwAfter (pw : Bool) (l : List Char) (n : Nat) : Bool :=
  if n = 0 then pw
  else
    match l.drop (n - 1) with
    | c :: _ => isWordChar c
    | [] => pw

/-- Backtracking matcher: all lengths a match of `rx` at the head of `l`
may consume, in the engine's preference order (greedy, leftmost
alternative first), so the head of the list is the length Python's `re`
would choose.  `pw` says whether the character before `l` is a word
character.  The fuel only bounds recursion depth; callers pass enough for
the pattern and input at hand. -/
def matchLens : Nat → Bool → Rx → List Char → List Nat
  | 0, _, _, _ => []
  | fuel + 1, pw, rx, l =>
    match rx with
    | .cls p =>
      match l with
      | [] => []
      | c :: _ => if p c then [1] else []
    | .seq a b =>
      (matchLens fuel pw a l).flatMap (fun n =>
        (matchLens fuel (pwAfter pw l n) b (l.drop n)).map (· + n))
    | .opt a => matchLens fuel pw a l ++ [0]
    | .wordB =>
      let nextW := match l with | [] => false | c :: _ => isWordChar c
      if pw != nextW then [0] else []
    | .rep min max a =>
      let viaOne :=
        if max = 0 then []
        else
          (matchLens fuel pw a l).flatMap (fun n =>
            if n = 0 then []
            else (matchLens fuel (pwAfter pw l n)
                (.rep (min - 1) (max - 1) a) (l.drop n)).map (· + n))
      if min = 0 then viaOne ++ [0] else viaOne
    | .atLeast min a => matchLens fuel pw (.rep min l.length a) l

/-- Static size of a pattern, for the fuel bound. -/
def rxSize : Rx → Nat
  | .cls _ => 1
  | .seq a b => rxSize a + rxSize b + 1
  | .opt a => rxSize a + 1
  | .rep _ max a => (max + 1) * (rxSize a + 2) + 1
  | .atLeast _ a => rxSize a + 2
  | .wordB => 1

/-- Generous recursion-depth bound for `matchLens` on input `l`. -/
def rxFuel (rx : Rx) (l : List Char) : Nat :=
  (l.length + 2) * (rxSize rx + 2) * 2

/-- One step of `re.findall`: try a match at the current position, emit it
and continue after it, else advance one character.  Matches never overlap,
and the first (preferred) length at the leftmost matching position wins,
as in Python. -/
def findallGo (rx : Rx) : Nat → Bool → List Char → List (List Char)
  | 0, _, _ => []
  | fuel + 1, pw, l =>
    match (matchLens (rxFuel rx l) pw rx l).head? with
    | some n =>
      if n = 0 then
        match l with
        | [] => []
        | c :: rest => findallGo rx fuel (isWordChar c) rest
      else (l.take n) :: findallGo rx fuel (pwAfter pw l n) (l.drop n)
    | none =>
      match l with
      | [] => []
      | c :: rest => findallGo rx fuel (isWordChar c) rest

/-- Model of `re.findall(pattern, text)` for a whole-match pattern. -/
def pyFindall (rx : Rx) (l : List Char) : List (List Char) :=
  findallGo rx (l.length + 1) false l

/-- Literal character as a pattern. -/
def rxLit (c : Char) : Rx := .cls (fun x => x == c)

/-- Class `[A-Za-z0-9._%+-]` (email local part). -/
def emailLocalChar (c : Char) : Bool :=
  c.isAlphanum || ['.', '_', '%', '+', '-'].contains c

/-- Class `[A-Za-z0-9.-]` (email domain). -/
def emailDomChar (c : Char) : Bool := c.isAlphanum || ['.', '-'].contains c

/-- Class `[A-Z|a-z]` as written in the source (the literal `|` is part of
the class). -/
def emailTldChar (c : Char) : Bool := c.isAlpha || c = '|'

/-- The email pattern of `utils.extract_emails`:
`\b[A-Za-z0-9._%+-]+@[A-Za-z0-9.-]+\.[A-Z|a-z]{2,}\b`. -/
def emailRx : Rx :=
  .seq .wordB (.seq (.atLeast 1 (.cls emailLocalChar)) (.seq (rxLit '@')
    (.seq (.atLeast 1 (.cls emailDomChar)) (.seq (rxLit '.')
      (.seq (.atLeast 2 (.cls emailTldChar)) .wordB)))))

/-- Embedding of `utils.extract_emails`. -/
def extract_emails (text : List Char) : List (List Char) := pyFindall emailRx text

/-- Digit class `\d`. -/
def rxDigit : Rx := .cls Char.isDigit

/-- Class `[-.]`. -/
def rxDashDot : Rx := .cls (fun c => c == '-' || c == '.')

/-- Class `[-.\s]`. -/
def rxDashDotWs : Rx := .cls (fun c => c == '-' || c == '.' || c.isWhitespace)

/-- Phone pattern `\b\d{3}[-.]?\d{3}[-.]?\d{4}\b`. -/
def phone1Rx : Rx :=
  .seq .wordB (.seq (.rep 3 3 rxDigit) (.seq (.opt rxDashDot)
    (.seq (.rep 3 3 rxDigit) (.seq (.opt rxDashDot)
      (.seq (.rep 4 4 rxDigit) .wordB)))))

/-- Phone pattern `\b\(\d{3}\)\s*\d{3}[-.]?\d{4}\b`. -/
def phone2Rx : Rx :=
  .seq .wordB (.seq (rxLit '(') (.seq (.rep 3 3 rxDigit) (.seq (rxLit ')')
    (.seq (.atLeast 0 (.cls Char.isWhitespace)) (.seq (.rep 3 3 rxDigit)
      (.seq (.opt rxDashDot) (.seq (.rep 4 4 rxDigit) .wordB)))))))

/-- Phone pattern
`\b\+\d{1,3}[-.\s]?\(?\d{1,4}\)?[-.\s]?\d{1,4}[-.\s]?\d{1,9}\b`. -/
def phone3Rx : Rx :=
  .seq .wordB (.seq (rxLit '+') (.seq (.rep 1 3 rxDigit) (.seq (.opt rxDashDotWs)
    (.seq (.opt (rxLit '(')) (.seq (.rep 1 4 rxDigit) (.seq (.opt (rxLit ')'))
      (.seq (.opt rxDashDotWs) (.seq (.rep 1 4 rxDigit)
        (.seq (.opt rxDashDotWs) (.seq (.rep 1 9 rxDigit) .wordB))))))))))

/-- Embedding of `utils.extract_phones`: the three patterns tried in order,
results concatenated. -/
def extract_phones (text : List Char) : List (List Char) :=
  pyFindall phone1Rx text ++ pyFindall phone2Rx text ++ pyFindall phone3Rx text

/-- Python `str.replace(sub, repl)` (all occurrences, left to right); the
fuel equals the input length, enough because every step consumes at least
one character. -/
def pyReplaceGo (sub repl : List Char) : Nat → List Char → List Char
  | 0, l => l
  | _ + 1, [] => []
  | fuel + 1, c :: rest =>
    if sub.isPrefixOf (c :: rest) && !sub.isEmpty then
      repl ++ pyReplaceGo sub repl fuel (List.drop (sub.length - 1) rest)
    else c :: pyReplaceGo sub repl fuel rest

/-- Model of Python `str.replace`. -/
def pyReplace (sub repl l : List Char) : List Char :=
  pyReplaceGo sub repl l.length l

/-! ## extractor.field_resolvers -/

namespace FieldResolvers

/-- The `h1` rule of `resolve_name`: the cleaned heading text when its
length is strictly between 3 and 100. -/
def nameH1Rule (tree : HNode) : Option (List Char) :=
  match cssFirst (.tag "h1".data) tree with
  | none => none
  | some h1 =>
    let name := clean_text (textContent h1)
    if !name.isEmpty && 3 < name.length && name.length < 100 then some name
    else none

/-- Meta properties tried by `resolve_name`, in order. -/
def nameMetaProps : List (List Char) := ["og:title".data, "twitter:title".data]

/-- The meta-tag loop of `resolve_name`: for each property, the tag is
looked up by `property=` then `name=`; a content value of raw length
strictly between 3 and 100 is returned cleaned, otherwise the loop
continues. -/
def nameMetaRuleGo (tree : HNode) : List (List Char) → Option (List Char)
  | [] => none
  | p :: ps =>
    let meta :=
      match cssFirst (.tagAttrEq "meta".data "property".data p) tree with
      | some m => some m
      | none => cssFirst (.tagAttrEq "meta".data "name".data p) tree
    match meta with
    | some m =>
      let content := (getAttr (attrsOf m) "content".data).getD []
      if !content.isEmpty && 3 < content.length && content.length < 100 then
        some (clean_text content)
      else nameMetaRuleGo tree ps
    | none => nameMetaRuleGo tree ps

/-- The schema.org rule of `resolve_name`: the cleaned `[itemprop="name"]`
text when its length is strictly between 3 and 100. -/
def nameItempropRule (tree : HNode) : Option (List Char) :=
  match cssFirst (.attrEq "itemprop".data "name".data) tree with
  | none => none
  | some n =>
    let name := clean_text (textContent n)
    if !name.isEmpty && 3 < name.length && name.length < 100 then some name
    else none

/-- Embedding of `FieldResolvers.resolve_name`: the source tries the `h1`
heading first, then the `og:title` / `twitter:title` meta tags, then the
schema.org `itemprop="name"` attribute, returning the first value of
length strictly between 3 and 100, else the empty string. -/
def resolve_name (tree : HNode) (_text : List Char) : List Char :=
  match nameH1Rule tree with
  | some v => v
  | none =>
    match nameMetaRuleGo tree nameMetaProps with
    | some v => v
    | none =>
      match nameItempropRule tree with
      | some v => v
      | none => []

/-- Substrings marking an email as generic in `resolve_email`. -/
def emailGenerics : List (List Char) :=
  ["example".data, "test".data, "noreply".data, "no-reply".data]

/-- The preference loop of `resolve_email`: the first extracted email whose
lower-cased form contains no generic marker. -/
def emailPickNonGeneric : List (List Char) → Option (List Char)
  | [] => none
  | e :: rest =>
    if emailGenerics.any (fun g => containsSub g (pyLower e)) then
      emailPickNonGeneric rest
    else some e

/-- Embedding of `FieldResolvers.resolve_email`: a `mailto:` link first
(the address taken from the href, query part dropped, accepted when it
contains an `@`), then the regex scan of the page text preferring
non-generic addresses. -/
def resolve_email (tree : HNode) (text : List Char) : List Char :=
  let mailtoStep : Option (List Char) :=
    match cssFirst (.tagAttrPrefix "a".data "href".data "mailto:".data) tree with
    | none => none
    | some m =>
      let href := (getAttr (attrsOf m) "href".data).getD []
      let email := (splitAtFirst '?' (pyReplace "mailto:".data [] href)).1
      if '@' ∈ email then some (pyStrip email) else none
  match mailtoStep with
  | some v => v
  | none =>
    match extract_emails text with
    | [] => []
    | e0 :: _ =>
      match emailPickNonGeneric (extract_emails text) with
      | some e => e
      | none => e0

/-- Embedding of `FieldResolvers.resolve_phone`: a `tel:` link first
(returned unconditionally when present), then the regex scan. -/
def resolve_phone (tree : HNode) (text : List Char) : List Char :=
  match cssFirst (.tagAttrPrefix "a".data "href".data "tel:".data) tree with
  | some t =>
    pyStrip (pyReplace "tel:".data [] ((getAttr (attrsOf t) "href".data).getD []))
  | none =>
    match extract_phones text with
    | [] => []
    | p :: _ => p

/-- The schema.org rule of `resolve_title`: a non-empty cleaned
`[itemprop="jobTitle"]` text is returned with no further check. -/
def titleJobTitleRule (tree : HNode) : Option (List Char) :=
  match cssFirst (.attrEq "itemprop".data "jobTitle".data) tree with
  | none => none
  | some n =>
    let title := clean_text (textContent n)
    if !title.isEmpty then some title else none

/-- Class-pattern selectors tried by `resolve_title`, in order. -/
def titleClassSels : List Sel :=
  [.attrSub "class".data "title".data,
   .attrSub "class".data "position".data,
   .attrSub "class".data "role".data,
   .classTok "job-title".data]

/-- The class-pattern loop of `resolve_title`: the first selector whose
node has a non-empty cleaned text shorter than 200 characters that is not
case-insensitively equal to the resolved name.  The source recomputes
`resolve_name` (a pure function) inside the loop; the precomputed value is
passed here. -/
def titleClassLoop (tree : HNode) (name : List Char) : List Sel → List Char
  | [] => []
  | sel :: rest =>
    match cssFirst sel tree with
    | none => titleClassLoop tree name rest
    | some node =>
      let title := clean_text (textContent node)
      if !title.isEmpty && title.length < 200 && pyLower title != pyLower name then
        title
      else titleClassLoop tree name rest

/-- Embedding of `FieldResolvers.resolve_title`: the `jobTitle` itemprop
first (no name check), then the class-pattern loop guarded against the
resolved name. -/
def resolve_title (tree : HNode) (text : List Char) : List Char :=
  match titleJobTitleRule tree with
  | some v => v
  | none => titleClassLoop tree (resolve_name tree text) titleClassSels

/-- Bio container selectors tried by `resolve_bio`, in order. -/
def bioSels : List Sel :=
  [.attrSub "class".data "bio".data,
   .attrSub "class".data "about".data,
   .attrSub "class".data "description".data,
   .idEq "biography".data,
   .idEq "about".data]

/-- The container loop of `resolve_bio`: a cleaned text longer than 50
characters, truncated to `max_length`. -/
def bioClassLoop (tree : HNode) (max_length : Nat) : List Sel → Option (List Char)
  | [] => none
  | sel :: rest =>
    match cssFirst sel tree with
    | none => bioClassLoop tree max_length rest
    | some node =>
      let bio := clean_text (textContent node)
      if !bio.isEmpty && bio.length > 50 then some (bio.take max_length)
      else bioClassLoop tree max_length rest

/-- Embedding of `FieldResolvers.resolve_bio` (the source's default
`max_length` is 1000): schema.org description, then bio containers, then
the first substantial paragraphs of `main`/`body`. -/
def resolve_bio (tree : HNode) (_text : List Char) (max_length : Nat) : List Char :=
  let descStep : Option (List Char) :=
    match cssFirst (.attrEq "itemprop".data "description".data) tree with
    | none => none
    | some n =>
      let bio := clean_text (textContent n)
      if !bio.isEmpty && bio.length > 50 then some (bio.take max_length) else none
  match descStep with
  | some v => v
  | none =>
    match bioClassLoop tree max_length bioSels with
    | some v => v
    | none =>
      let mainNode :=
        match cssFirst (.tag "main".data) tree with
        | some m => some m
        | none => cssFirst (.tag "body".data) tree
      match mainNode with
      | none => []
      | some m =>
        let paragraphs := (cssAll (.tag "p".data) m).take 3
        let texts := (paragraphs.map (fun p => clean_text (textContent p))).filter
          (fun t => t.length > 30)
        if !texts.isEmpty then (joinWith ' ' texts).take max_length else []

/-- Embedding of `FieldResolvers.resolve_page_url`: canonical link, then
`og:url`, then the as-fetched URL. -/
def resolve_page_url (tree : HNode) (current_url : List Char) : List Char :=
  let canonicalStep : Option (List Char) :=
    match cssFirst (.tagAttrEq "link".data "rel".data "canonical".data) tree with
    | none => none
    | some c =>
      let href := (getAttr (attrsOf c) "href".data).getD []
      if !href.isEmpty then some href else none
  match canonicalStep with
  | some v => v
  | none =>
    match cssFirst (.tagAttrEq "meta".data "property".data "og:url".data) tree with
    | some m =>
      let content := (getAttr (attrsOf m) "content".data).getD []
      if !content.isEmpty then content else current_url
    | none => current_url

/-- Organization selectors tried by `resolve_organization`, in order. -/
def orgSels : List Sel :=
  [.attrSub "class".data "department".data,
   .attrSub "class".data "organization".data,
   .attrSub "class".data "affiliation".data,
   .classTok "dept".data,
   .classTok "org".data]

/-- The class loop of `resolve_organization`: non-empty cleaned text
shorter than 200 characters. -/
def orgClassLoop (tree : HNode) : List Sel → List Char
  | [] => []
  | sel :: rest =>
    match cssFirst sel tree with
    | none => orgClassLoop tree rest
    | some node =>
      let org := clean_text (textContent node)
      if !org.isEmpty && org.length < 200 then org else orgClassLoop tree rest

/-- Embedding of `FieldResolvers.resolve_organization`. -/
def resolve_organization (tree : HNode) (_text : List Char) : List Char :=
  let itempropStep : Option (List Char) :=
    match cssFirst (.attrEq "itemprop".data "affiliation".data) tree with
    | none => none
    | some n =>
      let org := clean_text (textContent n)
      if !org.isEmpty then some org else none
  match itempropStep with
  | some v => v
  | none => orgClassLoop tree orgSels

/-- Location selectors tried by `resolve_location`, in order. -/
def locSels : List Sel :=
  [.attrSub "class".data "location".data,
   .attrSub "class".data "address".data,
   .classTok "office".data,
   .classTok "location".data]

/-- The class loop of `resolve_location`: non-empty cleaned text shorter
than 300 characters. -/
def locClassLoop (tree : HNode) : List Sel → List Char
  | [] => []
  | sel :: rest =>
    match cssFirst sel tree with
    | none => locClassLoop tree rest
    | some node =>
      let loc := clean_text (textContent node)
      if !loc.isEmpty && loc.length < 300 then loc else locClassLoop tree rest

/-- Embedding of `FieldResolvers.resolve_location`. -/
def resolve_location (tree : HNode) (_text : List Char) : List Char :=
  let itempropStep : Option (List Char) :=
    match cssFirst (.attrEq "itemprop".data "address".data) tree with
    | none => none
    | some n =>
      let addr := clean_text (textContent n)
      if !addr.isEmpty then some addr else none
  match itempropStep with
  | some v => v
  | none => locClassLoop tree locSels

end FieldResolvers

/-- The standard field names `resolve_all_fields` returns, in source
order. -/
def standardFields : List (List Char) :=
  ["name".data, "email".data, "phone".data, "title".data, "bio".data,
   "page_url".data, "org".data, "location".data]

/-- Embedding of `resolve_all_fields` (extractor/field_resolvers.py): one
entry per standard field, every resolver a total function, an
unresolvable field represented by the empty string. -/
def resolve_all_fields (tree : HNode) (page_url : List Char) :
    List (List Char × List Char) :=
  let page_text := textContent tree
  [("name".data, FieldResolvers.resolve_name tree page_text),
   ("email".data, FieldResolvers.resolve_email tree page_text),
   ("phone".data, FieldResolvers.resolve_phone tree page_text),
   ("title".data, FieldResolvers.resolve_title tree page_text),
   ("bio".data, FieldResolvers.resolve_bio tree page_text 1000),
   ("page_url".data, FieldResolvers.resolve_page_url tree page_url),
   ("org".data, FieldResolvers.resolve_organization tree page_text),
   ("location".data, FieldResolvers.resolve_location tree page_text)]

/-! ## Pagination strategy detection (pagination.py) -/

/-- The pagination strategy enum of models.py. -/
inductive PaginationStrategy where
  | NEXT_LINK
  | NUMBERED
  | CURSOR
  | INFINITE_SCROLL
  | NONE
deriving DecidableEq, Repr

/-- Splits a list on a separator character, Python `str.split(sep)`:
`"".split(sep)` gives one empty piece, adjacent separators give empty
pieces. -/
def splitOnChar (c : Char) (l : List Char) : List (List Char) :=
  l.foldr (fun x acc =>
    match acc with
    | [] => if x = c then [[], []] else [[x]]
    | w :: r => if x = c then [] :: w :: r else (x :: w) :: r) [[]]

/-- Presence of a query parameter in the sense of CPython
`parse_qs(query)` with default arguments: a `name=value` pair with a
non-empty value (blank values and bare names are dropped; percent and
plus decoding of the name is not modelled, the source only tests plain
ASCII parameter names). -/
def hasQsParam (name : List Char) (query : List Char) : Bool :=
  (splitOnChar '&' query).any (fun pair =>
    if pair.isEmpty then false
    else
      match splitAtFirst '=' pair with
      | (_, none) => false
      | (k, some v) => k == name && !v.isEmpty)

namespace PaginationDetector

/-- The `rel="next"` probe of `detect_strategy` and `_extract_next_link`:
an `a[rel="next"]` or `link[rel="next"]` element. -/
def hasNextRelLink (tree : HNode) : Bool :=
  (match cssFirst (.tagAttrEq "a".data "rel".data "next".data) tree with
   | some n => some n
   | none => cssFirst (.tagAttrEq "link".data "rel".data "next".data) tree).isSome

/-- Embedding of `PaginationDetector._has_numbered_pagination`: a
pagination-like container holding at least two links whose stripped text
is purely numeric. -/
def has_numbered_pagination (tree : HNode) : Bool :=
  let pagination :=
    match cssFirst (.attrSub "class".data "pagination".data) tree with
    | some p => some p
    | none =>
      match cssFirst (.attrSub "class".data "pager".data) tree with
      | some p => some p
      | none => cssFirst (.tagAttrEq "nav".data "role".data "navigation".data) tree
  match pagination with
  | none => false
  | some p =>
    let links := cssAll (.tag "a".data) p
    let number_links := (links.filter (fun l => pyIsDigit (pyStrip (textContent l)))).length
    decide (2 ≤ number_links)

/-- The load-more probe of `detect_strategy`: a `load-more` class or a
button whose text contains `Load More` (the `:contains` selector read per
its intended semantics). -/
def hasLoadMore (tree : HNode) : Bool :=
  (match cssFirst (.attrSub "class".data "load-more".data) tree with
   | some n => some n
   | none => cssFirst (.tagContainsText "button".data "Load More".data) tree).isSome

/-- The cursor probe of `detect_strategy`: a `cursor`, `after` or `offset`
query parameter in the detector's base URL. -/
def hasCursorParam (base_url : List Char) : Bool :=
  let query := (pyUrlparse base_url).query
  hasQsParam "cursor".data query || hasQsParam "after".data query ||
    hasQsParam "offset".data query

/-- Embedding of `PaginationDetector.detect_strategy`: first match wins in
the order next-link, numbered, load-more (infinite scroll), cursor, none. -/
def detect_strategy (base_url : List Char) (tree : HNode) : PaginationStrategy :=
  if hasNextRelLink tree then .NEXT_LINK
  else if has_numbered_pagination tree then .NUMBERED
  else if hasLoadMore tree then .INFINITE_SCROLL
  else if hasCursorParam base_url then .CURSOR
  else .NONE

end PaginationDetector

/-! ## HTTP fetch retry policy (fetcher.py) -/

/-- Outcome of one network attempt: a response with a status code, an
httpx transport-level error, an `asyncio.TimeoutError`, or any other
exception. -/
inductive FetchOutcome where
  | response (body : List Char) (status : Nat)
  | transportError
  | timeoutError
  | otherError

/-- The exception classes a fetch attempt can surface. -/
inductive PyError where
  | httpStatusError (status : Nat)
  | transportError
  | timeoutError
  | otherError
deriving DecidableEq, Repr

/-- One attempt of `HTTPFetcher.fetch`: `response.raise_for_status()`
raises `httpx.HTTPStatusError` for any 4xx or 5xx status; transport
errors, timeouts and other exceptions propagate as such. -/
def attemptResult : FetchOutcome → Except PyError (List Char × Nat)
  | .response body status =>
    if 400 ≤ status ∧ status < 600 then .error (.httpStatusError status)
    else .ok (body, status)
  | .transportError => .error .transportError
  | .timeoutError => .error .timeoutError
  | .otherError => .error .otherError

/-- The `httpx.HTTPError` class test: `HTTPStatusError` and the transport
errors (`httpx.RequestError` subclasses) are `httpx.HTTPError`;
`asyncio.TimeoutError` and other exceptions are not. -/
def isHttpxHTTPError : PyError → Bool
  | .httpStatusError _ => true
  | .transportError => true
  | .timeoutError => false
  | .otherError => false

/-- The `asyncio.TimeoutError` class test. -/
def isAsyncioTimeout : PyError → Bool
  | .timeoutError => true
  | _ => false

/-- The tenacity predicate
`retry_if_exception_type((httpx.HTTPError, asyncio.TimeoutError))`. -/
def isRetryableError (e : PyError) : Bool :=
  isHttpxHTTPError e || isAsyncioTimeout e

/-- The tenacity loop under `stop_after_attempt`: attempts are numbered
from 1; a failed attempt is retried while the exception matches the retry
predicate and attempts remain, else the error propagates.  Returns the
final result together with the number of attempts performed.  The fuel is
the number of attempts still allowed (so the first call gets the
`stop_after_attempt` limit). -/
def retryGo (outcomes : Nat → FetchOutcome) :
    Nat → Nat → (Except PyError (List Char × Nat)) × Nat
  | 0, attempt => (.error .otherError, attempt)
  | fuel + 1, attempt =>
    match attemptResult (outcomes attempt) with
    | .ok v => (.ok v, attempt)
    | .error e =>
      if isRetryableError e = true ∧ fuel ≠ 0 then retryGo outcomes fuel (attempt + 1)
      else (.error e, attempt)

/-- Embedding of the retry-decorated `HTTPFetcher.fetch`:
`stop_after_attempt(3)`, retried only on `httpx.HTTPError` or
`asyncio.TimeoutError`.  `outcomes n` is the network's answer to the
`n`-th attempt. -/
def fetchWithRetry (outcomes : Nat → FetchOutcome) :
    (Except PyError (List Char × Nat)) × Nat :=
  retryGo outcomes 3 1

/-- A server that always answers 404 (a permanent client error). -/
def const404Outcomes : Nat → FetchOutcome := fun _ => .response [] 404

/-- A fetch that always fails with a non-httpx, non-timeout exception. -/
def otherErrorOutcomes : Nat → FetchOutcome := fun _ => .otherError

/-- A server that always answers 200 with body `ok`. -/
def okOutcomes : Nat → FetchOutcome := fun _ => .response "ok".data 200

/-! ## Schema and hybrid extraction (models.py, llm_extractor.py) -/

/-- Schema definition for a single field (`FieldSchema` in models.py);
the type is the `FieldType` token string (`str`, `str?`, `email`, ...). -/
structure FieldSchema where
  name : List Char
  type : List Char
  pattern : Option (List Char) := none
  synonyms : List (List Char) := []

/-- Schema definition for extracted records (`RecordSchema`). -/
structure RecordSchema where
  fields : List FieldSchema

/-- Embedding of `RecordSchema.get_field`: first field with the name. -/
def RecordSchema.get_field (s : RecordSchema) (name : List Char) : Option FieldSchema :=
  s.fields.find? (fun f => f.name == name)

/-- Python `str.endswith("?")` for the optional-type test. -/
def endsWithQuestionMark (l : List Char) : Bool := l.getLast? == some '?'

/-- Embedding of `RecordSchema.is_required`: a known field whose type
token does not end in `?`; an unknown field is not required. -/
def RecordSchema.is_required (s : RecordSchema) (field_name : List Char) : Bool :=
  match s.get_field field_name with
  | none => false
  | some f => !endsWithQuestionMark f.type

/-- Python `record.get(key, "")` on a string-valued dict (also represents
`key not in record or not record[key]` as emptiness of the result). -/
def dictGet (r : List (List Char × List Char)) (k : List Char) : List Char :=
  (getAttr r k).getD []

/-- Python `record[key] = value` on a dict: replace in place or append. -/
def dictSet : List (List Char × List Char) → List Char → List Char →
    List (List Char × List Char)
  | [], k, v => [(k, v)]
  | (k2, v2) :: rest, k, v =>
    if k2 = k then (k, v) :: rest else (k2, v2) :: dictSet rest k v

/-- Embedding of `hybrid_extract` (extractor/llm_extractor.py): start from
a copy of the heuristic record; collect the required schema fields that
are absent or empty; when some are missing, the augmenter is configured
and enabled (`llm_enabled`) and its `extract` call returns a (truthy)
record (`llm_data`), overlay exactly the missing fields the augmenter
filled; in every other case return the heuristic record unchanged. -/
def hybrid_extract (schema : RecordSchema) (llm_enabled : Bool)
    (llm_data : Option (List (List Char × List Char)))
    (heuristic_data : List (List Char × List Char)) :
    List (List Char × List Char) :=
  let record := heuristic_data
  let missing_fields := (schema.fields.filter (fun f =>
      schema.is_required f.name && (dictGet record f.name).isEmpty)).map (·.name)
  if missing_fields ≠ [] ∧ llm_enabled = true then
    match llm_data with
    | some d =>
      if d.isEmpty then record
      else
        missing_fields.foldl (fun r fieldName =>
          if !(dictGet d fieldName).isEmpty then dictSet r fieldName (dictGet d fieldName)
          else r) record
    | none => record
  else record

/-- A one-required-field schema for the C6 witness. -/
def exampleSchema : RecordSchema :=
  ⟨[⟨"name".data, "str".data, none, []⟩, ⟨"email".data, "email?".data, none, []⟩]⟩

/-! ## Record deduplication (storage.py) -/

/-- The key parts of a record under the chosen key fields: for each key
field with a truthy value, the lower-cased stripped value (in order). -/
def recordKeyParts (key_fields : List (List Char))
    (r : List (List Char × List Char)) : List (List Char) :=
  key_fields.filterMap (fun f =>
    let value := dictGet r f
    if value.isEmpty then none else some (pyStrip (pyLower value)))

/-- The dedup key of a record: the `|`-join of its key parts, or none when
no key field is present (such records are always kept). -/
def recordKey (key_fields : List (List Char))
    (r : List (List Char × List Char)) : Option (List Char) :=
  let parts := recordKeyParts key_fields r
  if parts.isEmpty then none else some (joinWith '|' parts)

/-- The loop of `deduplicate_records`: thread the seen-key set (modelled
as a list with membership) through the records, keeping a keyed record
only on first sight of its key and keeping keyless records always. -/
def dedupGo (key_fields : List (List Char)) (seen : List (List Char)) :
    List (List (List Char × List Char)) → List (List (List Char × List Char))
  | [] => []
  | r :: rest =>
    match recordKey key_fields r with
    | none => r :: dedupGo key_fields seen rest
    | some k =>
      if k ∈ seen then dedupGo key_fields seen rest
      else r :: dedupGo key_fields (k :: seen) rest

/-- Embedding of `storage.deduplicate_records`. -/
def deduplicate_records (records : List (List (List Char × List Char)))
    (key_fields : List (List Char)) : List (List (List Char × List Char)) :=
  dedupGo key_fields [] records

/-! ## Pipeline politeness gate (pipeline.py) -/

/-- The slice of `RunMetadata` and instrumentation the politeness-gate
claim observes: counters start at zero, errors empty, and a count of
Fetcher invocations. -/
structure RunState where
  pages_fetched : Nat
  pages_failed : Nat
  records_extracted : Nat
  errors : List (List Char)
  fetcher_calls : Nat
deriving DecidableEq, Repr

/-- The metadata created in `ScraperPipeline.__init__`: all counters zero,
no errors, the fetcher never invoked yet. -/
def initialRunState : RunState := ⟨0, 0, 0, [], 0⟩

namespace ScraperPipeline

/-- Embedding of the politeness gate of `ScraperPipeline.run`: when
`config.respect_robots` is set and `check_robots_txt(start_url, ua)`
denies (`robots_allowed = false`), the error string is appended to the
metadata and the method returns at once — the `async with SmartFetcher`
block never runs.  Everything from fetcher construction through crawl and
finalization is `crawlPhase`, an arbitrary state transformer. -/
def run (respect_robots : Bool) (robots_allowed : Bool)
    (crawlPhase : RunState → RunState) (s : RunState) : RunState :=
  if respect_robots = true ∧ robots_allowed = false then
    { s with errors := s.errors ++ ["Disallowed by robots.txt".data] }
  else crawlPhase s

end ScraperPipeline

/-! ## Concrete example pages used by the theorems -/

/-- Detail page carrying both an `h1` heading and a schema.org
`itemprop="name"` value of valid length, with different contents. -/
def nameOrderTree : HNode :=
  .elem "html".data [] (hforest [
    .elem "body".data [] (hforest [
      .elem "h1".data [] (hforest [.text "Johnny H. Smith".data]),
      .elem "span".data [("itemprop".data, "name".data)]
        (hforest [.text "Jane Doe".data])])])

/-- Detail page whose only name source is the schema.org item property. -/
def nameItempropOnlyTree : HNode :=
  .elem "html".data [] (hforest [
    .elem "body".data [] (hforest [
      .elem "span".data [("itemprop".data, "name".data)]
        (hforest [.text "Jane Doe".data])])])

/-- Detail page whose `itemprop="jobTitle"` text equals its `h1` name. -/
def titleEqualsNameTree : HNode :=
  .elem "html".data [] (hforest [
    .elem "body".data [] (hforest [
      .elem "h1".data [] (hforest [.text "Jane Doe".data]),
      .elem "span".data [("itemprop".data, "jobTitle".data)]
        (hforest [.text "Jane Doe".data])])])

/-- Detail page with a class-pattern title distinct from the name and no
`jobTitle` item property. -/
def titleClassTree : HNode :=
  .elem "html".data [] (hforest [
    .elem "body".data [] (hforest [
      .elem "h1".data [] (hforest [.text "Jane Doe".data]),
      .elem "div".data [("class".data, "title".data)]
        (hforest [.text "Professor of Physics".data])])])

/-- Listing page exposing both a numbered-pagination container (two purely
numeric sibling links) and an explicit `rel="next"` link. -/
def paginationBothTree : HNode :=
  .elem "html".data [] (hforest [
    .elem "body".data [] (hforest [
      .elem "div".data [("class".data, "pagination".data)] (hforest [
        .elem "a".data [("href".data, "/people?page=1".data)]
          (hforest [.text "1".data]),
        .elem "a".data [("href".data, "/people?page=2".data)]
          (hforest [.text "2".data]),
        .elem "a".data [("rel".data, "next".data), ("href".data, "/people?page=2".data)]
          (hforest [.text "Next".data])])])])

/-- Fuller detail page: name, class title, mailto link and phone text. -/
def exampleDetailTree : HNode :=
  .elem "html".data [] (hforest [
    .elem "body".data [] (hforest [
      .elem "h1".data [] (hforest [.text "Jane Doe".data]),
      .elem "div".data [("class".data, "title".data)]
        (hforest [.text "Professor of Physics".data]),
      .elem "a".data [("href".data, "mailto:jane@uni.edu".data)]
        (hforest [.text "email me".data]),
      .elem "p".data [] (hforest [.text "Call 555-123-4567".data])])])

/-! ## Theorem section: helper lemmas -/

theorem splitAtFirst_nil (c : Char) : splitAtFirst c [] = ([], none) := rfl

theorem splitAtFirst_cons (c x : Char) (xs : List Char) :
    splitAtFirst c (x :: xs) =
      if x = c then ([], some xs)
      else (x :: (splitAtFirst c xs).1, (splitAtFirst c xs).2) := rfl

theorem splitAtFirst_append_some {c : Char} {l p q : List Char} (t : List Char)
    (h : splitAtFirst c l = (p, some q)) :
    splitAtFirst c (l ++ t) = (p, some (q ++ t)) := by
  induction l generalizing p with
  | nil => simp [splitAtFirst_nil] at h
  | cons x xs ih =>
    rw [splitAtFirst_cons] at h
    rw [List.cons_append, splitAtFirst_cons]
    by_cases hx : x = c
    · rw [if_pos hx] at h
      obtain ⟨hp, h2⟩ := Prod.mk.injEq .. ▸ h
      obtain rfl := hp
      obtain rfl := Option.some.inj h2
      rw [if_pos hx]
    · rw [if_neg hx] at h
      obtain ⟨rfl, h2⟩ := Prod.mk.injEq .. ▸ h
      rw [if_neg hx]
      have h' : splitAtFirst c xs = ((splitAtFirst c xs).1, some q) := by
        rw [← h2]
      rw [ih h']

theorem splitAtFirst_none_eq {c : Char} {l p : List Char}
    (h : splitAtFirst c l = (p, none)) : p = l := by
  induction l generalizing p with
  | nil => simpa [splitAtFirst_nil] using congrArg Prod.fst h
  | cons x xs ih =>
    rw [splitAtFirst_cons] at h
    by_cases hx : x = c
    · rw [if_pos hx] at h
      exact absurd (congrArg Prod.snd h) (by simp)
    · rw [if_neg hx] at h
      obtain ⟨rfl, h2⟩ := Prod.mk.injEq .. ▸ h
      have := ih (show splitAtFirst c xs = ((splitAtFirst c xs).1, none) by rw [← h2])
      rw [this]

theorem splitAtFirst_append_none {c : Char} {l : List Char} (t : List Char)
    (h : (splitAtFirst c l).2 = none) :
    splitAtFirst c (l ++ t) = (l ++ (splitAtFirst c t).1, (splitAtFirst c t).2) := by
  induction l with
  | nil => simp [splitAtFirst_nil]
  | cons x xs ih =>
    rw [splitAtFirst_cons] at h
    rw [List.cons_append, splitAtFirst_cons]
    by_cases hx : x = c
    · rw [if_pos hx] at h
      simp at h
    · rw [if_neg hx] at h
      rw [if_neg hx, ih h, List.cons_append]

theorem splitAtFirst_eq_append {c : Char} {l p q : List Char}
    (h : splitAtFirst c l = (p, some q)) : l = p ++ c :: q := by
  induction l generalizing p with
  | nil => simp [splitAtFirst_nil] at h
  | cons x xs ih =>
    rw [splitAtFirst_cons] at h
    by_cases hx : x = c
    · rw [if_pos hx] at h
      obtain ⟨rfl, h2⟩ := Prod.mk.injEq .. ▸ h
      rw [List.nil_append, hx]
      exact congrArg (c :: ·) (Option.some.inj h2)
    · rw [if_neg hx] at h
      obtain ⟨rfl, h2⟩ := Prod.mk.injEq .. ▸ h
      have := ih (show splitAtFirst c xs = ((splitAtFirst c xs).1, some q) by rw [← h2])
      rw [List.cons_append, ← this]

theorem splitAtFirst_not_mem {c : Char} {l : List Char} (h : c ∉ l) :
    splitAtFirst c l = (l, none) := by
  induction l with
  | nil => rfl
  | cons x xs ih =>
    have hx : ¬ x = c := fun he => h (he ▸ List.mem_cons_self x xs)
    rw [splitAtFirst_cons, if_neg hx, ih (fun hm => h (List.mem_cons_of_mem x hm))]

theorem splitAtFirst_cons_self (c : Char) (t : List Char) :
    splitAtFirst c (c :: t) = ([], some t) := by
  rw [splitAtFirst_cons, if_pos rfl]

theorem takeWhile_append_of_neg {p : Char → Bool} {c : Char} (h : p c = false)
    (a t : List Char) : (a ++ c :: t).takeWhile p = a.takeWhile p := by
  induction a with
  | nil => simp [List.takeWhile, h]
  | cons x xs ih =>
    by_cases hx : p x
    · simpa [List.takeWhile_cons, hx] using ih
    · simp [List.takeWhile_cons, hx]

theorem dropWhile_append_of_neg {p : Char → Bool} {c : Char} (h : p c = false)
    (a t : List Char) : (a ++ c :: t).dropWhile p = a.dropWhile p ++ c :: t := by
  induction a with
  | nil => simp [List.dropWhile, h]
  | cons x xs ih =>
    by_cases hx : p x
    · simpa [List.dropWhile_cons, hx] using ih
    · simp [List.dropWhile_cons, hx]

theorem pyStrip_self_parts {l : List Char} (h : pyStrip l = l) :
    dropLeadingWs l = l ∧ dropTrailingWs l = l := by
  have hsuf : dropLeadingWs l <:+ l := List.dropWhile_suffix _
  have hlen1 : (dropLeadingWs l).length ≤ l.length := hsuf.length_le
  have hlen2 : (dropTrailingWs (dropLeadingWs l)).length ≤ (dropLeadingWs l).length := by
    have : ((dropLeadingWs l).reverse.dropWhile Char.isWhitespace) <:+
        (dropLeadingWs l).reverse := List.dropWhile_suffix _
    simpa [dropTrailingWs] using this.length_le
  have hl : (pyStrip l).length = l.length := by rw [h]
  have h1 : (dropLeadingWs l).length = l.length := by
    have := hl
    simp only [pyStrip] at this
    omega
  have hdl : dropLeadingWs l = l := hsuf.eq_of_length h1
  refine ⟨hdl, ?_⟩
  have := h
  simpa [pyStrip, hdl] using this

theorem validScheme_eq_false_of_mem {c : Char} {l : List Char} (hm : c ∈ l)
    (hc : isSchemeChar c = false) : validScheme l = false := by
  cases l with
  | nil => cases hm
  | cons x xs =>
    have hall : (x :: xs).all isSchemeChar = false :=
      List.all_eq_false.mpr ⟨c, hm, by simp [hc]⟩
    simp [validScheme, hall]

theorem splitScheme_append {c : Char} (hc1 : isSchemeChar c = false) (hc2 : c ≠ ':')
    (w t : List Char) :
    splitScheme (w ++ c :: t) = ((splitScheme w).1, (splitScheme w).2 ++ c :: t) := by
  rcases h : splitAtFirst ':' w with ⟨p, q⟩
  cases q with
  | some q =>
    have h2 := splitAtFirst_append_some (c :: t) h
    by_cases hv : validScheme p
    · simp [splitScheme, h, h2, hv]
    · simp [splitScheme, h, h2, hv]
  | none =>
    have hp : p = w := splitAtFirst_none_eq h
    subst hp
    have h2 := splitAtFirst_append_none (l := p) (c := ':') (c :: t)
        (by rw [h])
    rcases h3 : splitAtFirst ':' (c :: t) with ⟨p3, q3⟩
    have hcc : ¬ c = ':' := hc2
    cases q3 with
    | none =>
      have : p3 = c :: t := splitAtFirst_none_eq h3
      subst this
      simp only [h3] at h2
      simp [splitScheme, h, h2]
    | some q3 =>
      have hform : c :: t = p3 ++ ':' :: q3 := splitAtFirst_eq_append h3
      have hmem : c ∈ p3 := by
        cases p3 with
        | nil => simp at hform; exact absurd hform.1 hc2
        | cons y ys => simp at hform; simp [hform.1]
      simp only [h3] at h2
      have hinv : validScheme (p ++ p3) = false :=
        validScheme_eq_false_of_mem (List.mem_append_right p hmem) hc1
      simp [splitScheme, h, h2, hinv]

theorem startsWithDoubleSlash_nil : startsWithDoubleSlash [] = false := rfl

theorem startsWithDoubleSlash_single (x : Char) :
    startsWithDoubleSlash [x] = false := rfl

theorem startsWithDoubleSlash_cons2 (x y : Char) (rest : List Char) :
    startsWithDoubleSlash (x :: y :: rest) = (decide (x = '/') && decide (y = '/')) := rfl

theorem startsWithDoubleSlash_append {c : Char} (hc : c ≠ '/') (l t : List Char) :
    startsWithDoubleSlash (l ++ c :: t) = startsWithDoubleSlash l := by
  match l with
  | [] =>
    rw [List.nil_append, startsWithDoubleSlash_nil]
    cases t with
    | nil => simp [startsWithDoubleSlash_single]
    | cons y ys => simp [startsWithDoubleSlash_cons2, hc]
  | [x] =>
    rw [List.cons_append, List.nil_append, startsWithDoubleSlash_cons2,
      startsWithDoubleSlash_single]
    simp [hc]
  | x :: y :: rest => rfl

theorem startsWithDoubleSlash_true_elim {l : List Char}
    (h : startsWithDoubleSlash l = true) : ∃ r, l = '/' :: '/' :: r := by
  match l with
  | [] => cases h
  | [x] => cases h
  | x :: y :: r =>
    rw [startsWithDoubleSlash_cons2] at h
    obtain ⟨hx, hy⟩ := Bool.and_eq_true .. ▸ h
    exact ⟨r, by rw [of_decide_eq_true hx, of_decide_eq_true hy]⟩

theorem splitNetloc_append_delim {c : Char} (hd : isNetlocDelim c = true)
    (hc : c ≠ '/') (r t : List Char) :
    splitNetloc (r ++ c :: t) = ((splitNetloc r).1, (splitNetloc r).2 ++ c :: t) := by
  by_cases hs : startsWithDoubleSlash r = true
  · obtain ⟨r3, rfl⟩ := startsWithDoubleSlash_true_elim hs
    have hs2 : startsWithDoubleSlash ('/' :: '/' :: r3 ++ c :: t) = true := by
      rw [List.cons_append, List.cons_append, startsWithDoubleSlash_cons2]
      simp
    have hneg : (fun x => !isNetlocDelim x) c = false := by simp [hd]
    rw [splitNetloc, if_pos hs2, splitNetloc, if_pos hs]
    simp only [List.cons_append, List.drop_succ_cons, List.drop_zero]
    rw [takeWhile_append_of_neg hneg, dropWhile_append_of_neg hneg]
  · have hs2 : ¬ startsWithDoubleSlash (r ++ c :: t) = true := by
      rw [startsWithDoubleSlash_append hc]
      exact hs
    rw [splitNetloc, if_neg hs2, splitNetloc, if_neg hs]

theorem splitAtFirst_fst_append_self (c : Char) (a t : List Char) :
    (splitAtFirst c (a ++ c :: t)).1 = (splitAtFirst c a).1 := by
  rcases h : splitAtFirst c a with ⟨p, q⟩
  cases q with
  | some q => simp [splitAtFirst_append_some (c :: t) h, h]
  | none =>
    have hp : p = a := splitAtFirst_none_eq h
    have h2 := splitAtFirst_append_none (c := c) (c :: t) (by rw [h])
    simp [h2, splitAtFirst_cons_self, h, hp]

theorem removeUnsafe_append (a b : List Char) :
    removeUnsafe (a ++ b) = removeUnsafe a ++ removeUnsafe b := by
  simp [removeUnsafe, List.filter_append]

theorem removeUnsafe_cons_keep {c : Char} (h1 : c ≠ '\t') (h2 : c ≠ '\r') (h3 : c ≠ '\n')
    (b : List Char) : removeUnsafe (c :: b) = c :: removeUnsafe b := by
  simp [removeUnsafe, List.filter_cons, h1, h2, h3]

/-- The four `urlsplit` components other than the fragment ignore everything
from the first appended `#` on. -/
theorem pyUrlsplit_append_hash (x y : List Char) :
    (pyUrlsplit (x ++ '#' :: y)).scheme = (pyUrlsplit x).scheme ∧
    (pyUrlsplit (x ++ '#' :: y)).netloc = (pyUrlsplit x).netloc ∧
    (pyUrlsplit (x ++ '#' :: y)).path = (pyUrlsplit x).path ∧
    (pyUrlsplit (x ++ '#' :: y)).query = (pyUrlsplit x).query := by
  have hl : lstripC0 (x ++ '#' :: y) = lstripC0 x ++ '#' :: y :=
    dropWhile_append_of_neg (by decide) x y
  have hr : removeUnsafe (lstripC0 x ++ '#' :: y)
      = removeUnsafe (lstripC0 x) ++ '#' :: removeUnsafe y := by
    rw [removeUnsafe_append, removeUnsafe_cons_keep (by decide) (by decide) (by decide)]
  have hin : removeUnsafe (lstripC0 (x ++ '#' :: y))
      = removeUnsafe (lstripC0 x) ++ '#' :: removeUnsafe y := by rw [hl, hr]
  have hs := splitScheme_append (c := '#') (by decide) (by decide)
      (removeUnsafe (lstripC0 x)) (removeUnsafe y)
  have hn := splitNetloc_append_delim (c := '#') (by decide) (by decide)
      (splitScheme (removeUnsafe (lstripC0 x))).2 (removeUnsafe y)
  have hf := splitAtFirst_fst_append_self '#'
      (splitNetloc (splitScheme (removeUnsafe (lstripC0 x))).2).2 (removeUnsafe y)
  refine ⟨?_, ?_, ?_, ?_⟩
  · show (splitScheme (removeUnsafe (lstripC0 (x ++ '#' :: y)))).1
      = (splitScheme (removeUnsafe (lstripC0 x))).1
    rw [hin, hs]
  · show (splitNetloc (splitScheme (removeUnsafe (lstripC0 (x ++ '#' :: y)))).2).1
      = (splitNetloc (splitScheme (removeUnsafe (lstripC0 x))).2).1
    rw [hin, hs, hn]
  · show (splitQuery (splitFragment
        (splitNetloc (splitScheme (removeUnsafe (lstripC0 (x ++ '#' :: y)))).2).2).1).1
      = (splitQuery (splitFragment
        (splitNetloc (splitScheme (removeUnsafe (lstripC0 x))).2).2).1).1
    rw [hin, hs, hn]
    exact congrArg (fun z => (splitQuery z).1) hf
  · show (splitQuery (splitFragment
        (splitNetloc (splitScheme (removeUnsafe (lstripC0 (x ++ '#' :: y)))).2).2).1).2
      = (splitQuery (splitFragment
        (splitNetloc (splitScheme (removeUnsafe (lstripC0 x))).2).2).1).2
    rw [hin, hs, hn]
    exact congrArg (fun z => (splitQuery z).2) hf

theorem pyUrlparse_append_hash (x y : List Char) :
    (pyUrlparse (x ++ '#' :: y)).scheme = (pyUrlparse x).scheme ∧
    (pyUrlparse (x ++ '#' :: y)).netloc = (pyUrlparse x).netloc ∧
    (pyUrlparse (x ++ '#' :: y)).path = (pyUrlparse x).path ∧
    (pyUrlparse (x ++ '#' :: y)).params = (pyUrlparse x).params ∧
    (pyUrlparse (x ++ '#' :: y)).query = (pyUrlparse x).query := by
  obtain ⟨h1, h2, h3, h4⟩ := pyUrlsplit_append_hash x y
  unfold pyUrlparse
  by_cases hc : (pyUrlsplit x).scheme ∈ usesParams ∧ ';' ∈ (pyUrlsplit x).path
  · rw [if_pos hc, if_pos (by rw [h1, h3]; exact hc)]
    exact ⟨h1, h2, by rw [h3], by rw [h3], h4⟩
  · rw [if_neg hc, if_neg (by rw [h1, h3]; exact hc)]
    exact ⟨h1, h2, h3, rfl, h4⟩

theorem pyStrip_append_hash {v : List Char} (hv : pyStrip v = v) (g : List Char) :
    pyStrip (v ++ '#' :: g) = v ++ '#' :: dropTrailingWs g := by
  obtain ⟨hlead, -⟩ := pyStrip_self_parts hv
  have h1 : dropLeadingWs (v ++ '#' :: g) = v ++ '#' :: g := by
    unfold dropLeadingWs at hlead ⊢
    rw [dropWhile_append_of_neg (by decide), hlead]
  unfold pyStrip
  rw [h1]
  unfold dropTrailingWs
  rw [List.reverse_append, List.reverse_cons, List.append_assoc, List.singleton_append,
    dropWhile_append_of_neg (by decide), List.reverse_append, List.reverse_cons,
    List.reverse_reverse]
  simp

theorem toLower_hash : Char.toLower '#' = '#' := by decide

theorem toLower_slash : Char.toLower '/' = '/' := by decide

/-- Appending a fragment to a stripped URL does not change its
`models.normalize_url` normalization. -/
theorem models_normalize_append_hash {u : List Char}
    (hv : pyStrip (pyLower u) = pyLower u) (f : List Char) :
    Models.normalize_url (u ++ '#' :: f) = Models.normalize_url u := by
  have hlow : pyLower (u ++ '#' :: f) = pyLower u ++ '#' :: pyLower f := by
    unfold pyLower
    rw [List.map_append, List.map_cons, toLower_hash]
  unfold Models.normalize_url
  dsimp only
  rw [hlow, pyStrip_append_hash hv, hv]
  obtain ⟨h1, h2, h3, h4, h5⟩ :=
    pyUrlparse_append_hash (pyLower u) (dropTrailingWs (pyLower f))
  rw [h1, h2, h3, h4, h5]

theorem mem_lstripC0_of_mem {c : Char} {l : List Char} (h : c ∈ lstripC0 l) : c ∈ l :=
  (List.dropWhile_sublist _).subset h

theorem mem_removeUnsafe_of_mem {c : Char} {l : List Char} (h : c ∈ removeUnsafe l) :
    c ∈ l := List.mem_of_mem_filter h

theorem not_mem_preprocess {c : Char} {l : List Char} (h : c ∉ l) :
    c ∉ removeUnsafe (lstripC0 l) :=
  fun hm => h (mem_lstripC0_of_mem (mem_removeUnsafe_of_mem hm))

theorem not_mem_splitScheme_snd {c : Char} {l : List Char} (h : c ∉ l) :
    c ∉ (splitScheme l).2 := by
  rcases hsp : splitAtFirst ':' l with ⟨p, q⟩
  cases q with
  | some q =>
    have hl : l = p ++ ':' :: q := splitAtFirst_eq_append hsp
    by_cases hval : validScheme p
    · rw [splitScheme, hsp]
      simp only [if_pos hval]
      intro hm
      exact h (hl ▸ List.mem_append_right p (List.mem_cons_of_mem ':' hm))
    · rw [splitScheme, hsp]
      simp only [if_neg hval]
      exact h
  | none =>
    rw [splitScheme, hsp]
    exact h

theorem not_mem_splitNetloc_snd {c : Char} {l : List Char} (h : c ∉ l) :
    c ∉ (splitNetloc l).2 := by
  by_cases hs : startsWithDoubleSlash l = true
  · rw [splitNetloc, if_pos hs]
    intro hm
    exact h ((List.drop_sublist 2 l).subset ((List.dropWhile_sublist _).subset hm))
  · rw [splitNetloc, if_neg hs]
    exact h

theorem pyRstrip_append_self (c : Char) (l : List Char) :
    pyRstrip c (l ++ [c]) = pyRstrip c l := by
  unfold pyRstrip
  rw [List.reverse_append]
  simp [List.dropWhile_cons]

theorem startsWithDoubleSlash_append_slash {l : List Char} (h : l ≠ ['/']) :
    startsWithDoubleSlash (l ++ ['/']) = startsWithDoubleSlash l := by
  match l with
  | [] => rfl
  | [x] =>
    have hx : ¬ x = '/' := fun he => h (by rw [he])
    rw [List.cons_append, List.nil_append, startsWithDoubleSlash_cons2,
      startsWithDoubleSlash_single]
    simp [hx]
  | x :: y :: rest => rfl

theorem splitNetloc_append_slash {r : List Char} (hr : r ≠ ['/']) :
    splitNetloc (r ++ ['/']) = ((splitNetloc r).1, (splitNetloc r).2 ++ ['/']) := by
  by_cases hsd : startsWithDoubleSlash r = true
  · obtain ⟨r3, rfl⟩ := startsWithDoubleSlash_true_elim hsd
    have hsd2 : startsWithDoubleSlash ('/' :: '/' :: r3 ++ ['/']) = true := by
      rw [List.cons_append, List.cons_append, startsWithDoubleSlash_cons2]
      simp
    have hneg : (fun x => !isNetlocDelim x) '/' = false := by decide
    rw [splitNetloc, if_pos hsd2, splitNetloc, if_pos hsd]
    simp only [List.cons_append, List.drop_succ_cons, List.drop_zero]
    rw [takeWhile_append_of_neg hneg, dropWhile_append_of_neg hneg]
  · have hsd2 : ¬ startsWithDoubleSlash (r ++ ['/']) = true := by
      rw [startsWithDoubleSlash_append_slash hr]
      exact hsd
    rw [splitNetloc, if_neg hsd2, splitNetloc, if_neg hsd]

/-- For a URL with no `#` and no `?`, the `urlsplit` path is the whole
remainder after scheme and netloc, and the query is empty. -/
theorem pyUrlsplit_no_frag_query {l : List Char} (hh : '#' ∉ l) (hq : '?' ∉ l) :
    (pyUrlsplit l).path = (splitNetloc (splitScheme (removeUnsafe (lstripC0 l))).2).2 ∧
    (pyUrlsplit l).query = [] := by
  have h1 : '#' ∉ (splitNetloc (splitScheme (removeUnsafe (lstripC0 l))).2).2 :=
    not_mem_splitNetloc_snd (not_mem_splitScheme_snd (not_mem_preprocess hh))
  have h2 : '?' ∉ (splitNetloc (splitScheme (removeUnsafe (lstripC0 l))).2).2 :=
    not_mem_splitNetloc_snd (not_mem_splitScheme_snd (not_mem_preprocess hq))
  have hfr := splitAtFirst_not_mem h1
  have hqr := splitAtFirst_not_mem h2
  constructor
  · show (splitQuery (splitFragment
        (splitNetloc (splitScheme (removeUnsafe (lstripC0 l))).2).2).1).1 = _
    unfold splitFragment splitQuery
    rw [hfr]
    dsimp only
    rw [hqr]
  · show (splitQuery (splitFragment
        (splitNetloc (splitScheme (removeUnsafe (lstripC0 l))).2).2).1).2 = []
    unfold splitFragment splitQuery
    rw [hfr]
    dsimp only
    rw [hqr]
    rfl

/-- For a URL with no `#`, `?` or `;`, `urlparse` returns the remainder
after scheme and netloc as its path, with empty params and query. -/
theorem pyUrlparse_no_specials {l : List Char} (hh : '#' ∉ l) (hq : '?' ∉ l)
    (hsemi : ';' ∉ l) :
    (pyUrlparse l).scheme = (pyUrlsplit l).scheme ∧
    (pyUrlparse l).netloc = (pyUrlsplit l).netloc ∧
    (pyUrlparse l).path = (splitNetloc (splitScheme (removeUnsafe (lstripC0 l))).2).2 ∧
    (pyUrlparse l).params = [] ∧
    (pyUrlparse l).query = [] := by
  obtain ⟨hpath, hquery⟩ := pyUrlsplit_no_frag_query hh hq
  have hsp : ';' ∉ (pyUrlsplit l).path := by
    rw [hpath]
    exact not_mem_splitNetloc_snd (not_mem_splitScheme_snd (not_mem_preprocess hsemi))
  have hcond : ¬ ((pyUrlsplit l).scheme ∈ usesParams ∧ ';' ∈ (pyUrlsplit l).path) :=
    fun hc => hsp hc.2
  unfold pyUrlparse
  rw [if_neg hcond]
  exact ⟨rfl, rfl, hpath, rfl, hquery⟩

/-- Appending a slash to a stripped, fragment-, query- and params-free URL
with a non-empty, non-root path does not change its `models.normalize_url`
normalization. -/
theorem models_normalize_append_slash {u : List Char}
    (hv : pyStrip (pyLower u) = pyLower u)
    (hh : '#' ∉ pyLower u) (hq : '?' ∉ pyLower u) (hsemi : ';' ∉ pyLower u)
    (hp1 : (pyUrlparse (pyLower u)).path ≠ [])
    (hp2 : (pyUrlparse (pyLower u)).path ≠ ['/']) :
    Models.normalize_url (u ++ ['/']) = Models.normalize_url u := by
  have hlow : pyLower (u ++ ['/']) = pyLower u ++ ['/'] := by
    unfold pyLower
    rw [List.map_append, List.map_cons, toLower_slash, List.map_nil]
  obtain ⟨hlead, -⟩ := pyStrip_self_parts hv
  have hstrip2 : pyStrip (pyLower u ++ ['/']) = pyLower u ++ ['/'] := by
    unfold pyStrip
    have hl2 : dropLeadingWs (pyLower u ++ ['/']) = pyLower u ++ ['/'] := by
      unfold dropLeadingWs at hlead ⊢
      rw [dropWhile_append_of_neg (by decide), hlead]
    rw [hl2]
    unfold dropTrailingWs
    rw [List.reverse_append]
    simp [List.dropWhile_cons]
  -- the preprocessed remainder after scheme and netloc, for the original URL
  have hwapp : removeUnsafe (lstripC0 (pyLower u ++ ['/']))
      = removeUnsafe (lstripC0 (pyLower u)) ++ ['/'] := by
    unfold lstripC0
    rw [dropWhile_append_of_neg (by decide), removeUnsafe_append,
      removeUnsafe_cons_keep (by decide) (by decide) (by decide)]
    rfl
  have hsch := splitScheme_append (c := '/') (by decide) (by decide)
      (removeUnsafe (lstripC0 (pyLower u))) []
  obtain ⟨hs1, hs2, hs3, hs4, hs5⟩ := pyUrlparse_no_specials hh hq hsemi
  -- name the remainder after scheme and netloc
  have hr2ne1 : (splitNetloc (splitScheme (removeUnsafe (lstripC0 (pyLower u)))).2).2 ≠ [] := by
    rw [← hs3]; exact hp1
  have hr2ne2 : (splitNetloc (splitScheme (removeUnsafe (lstripC0 (pyLower u)))).2).2 ≠ ['/'] := by
    rw [← hs3]; exact hp2
  have hrne : (splitScheme (removeUnsafe (lstripC0 (pyLower u)))).2 ≠ ['/'] := by
    by_cases hsd : startsWithDoubleSlash (splitScheme (removeUnsafe (lstripC0 (pyLower u)))).2 = true
    · obtain ⟨r3, he⟩ := startsWithDoubleSlash_true_elim hsd
      rw [he]
      intro hcontra
      simp at hcontra
    · intro hcontra
      rw [splitNetloc, if_neg hsd] at hr2ne2
      exact hr2ne2 hcontra
  have hnet := splitNetloc_append_slash hrne
  -- membership facts about the appended remainder
  have hh2 : '#' ∉ pyLower u ++ ['/'] := by
    intro hm
    rcases List.mem_append.mp hm with hm1 | hm1
    · exact hh hm1
    · simp at hm1
  have hq2 : '?' ∉ pyLower u ++ ['/'] := by
    intro hm
    rcases List.mem_append.mp hm with hm1 | hm1
    · exact hq hm1
    · simp at hm1
  have hsemi2 : ';' ∉ pyLower u ++ ['/'] := by
    intro hm
    rcases List.mem_append.mp hm with hm1 | hm1
    · exact hsemi hm1
    · simp at hm1
  obtain ⟨hc1, hc2, hc3, hc4, hc5⟩ := pyUrlparse_no_specials hh2 hq2 hsemi2
  -- identify the components of the appended parse with those of the original
  have hscheme_eq : (pyUrlsplit (pyLower u ++ ['/'])).scheme = (pyUrlsplit (pyLower u)).scheme := by
    show (splitScheme (removeUnsafe (lstripC0 (pyLower u ++ ['/'])))).1 = _
    rw [hwapp]
    have := hsch
    simp only [List.nil_append] at this
    rw [this]
    rfl
  have hnetloc_eq : (pyUrlsplit (pyLower u ++ ['/'])).netloc = (pyUrlsplit (pyLower u)).netloc := by
    show (splitNetloc (splitScheme (removeUnsafe (lstripC0 (pyLower u ++ ['/'])))).2).1 = _
    rw [hwapp]
    have := hsch
    simp only [List.nil_append] at this
    rw [this, hnet]
    rfl
  have hpath_eq : (pyUrlparse (pyLower u ++ ['/'])).path
      = (pyUrlparse (pyLower u)).path ++ ['/'] := by
    rw [hc3, hs3]
    rw [hwapp]
    have := hsch
    simp only [List.nil_append] at this
    rw [this, hnet]
  -- assemble
  unfold Models.normalize_url
  dsimp only
  rw [hlow, hstrip2, hv]
  rw [hpath_eq, hc4, hc5, hs4, hs5]
  rw [pyRstrip_append_self]
  have hschemes : (pyUrlparse (pyLower u ++ ['/'])).scheme = (pyUrlparse (pyLower u)).scheme := by
    rw [hc1, hs1]; exact hscheme_eq
  have hnetlocs : (pyUrlparse (pyLower u ++ ['/'])).netloc = (pyUrlparse (pyLower u)).netloc := by
    rw [hc2, hs2]; exact hnetloc_eq
  rw [hschemes, hnetlocs]

/-- Claim C8: the task id of a `PageTask` is a content hash of the
normalized URL (lower-cased, fragment stripped, trailing slash collapsed
except at root); any two URLs that normalize identically collide to the
same id, and adding a fragment, changing letter case, or appending a
trailing slash to a non-root path leaves the task id unchanged.  The
digest is abstracted as an arbitrary `hash`; the slash and fragment parts
carry the well-formedness hypotheses under which the transformation is the
textual append the claim describes (URL already stripped; for the slash
part no `#`, `?` or `;` and a non-empty, non-root parsed path). -/
theorem task_id_normalization :
    (∀ (hash : List Char → List Char) (u1 u2 : List Char),
        Models.normalize_url u1 = Models.normalize_url u2 →
        Models.task_id hash u1 = Models.task_id hash u2) ∧
    (∀ (hash : List Char → List Char) (u1 u2 : List Char),
        pyLower u1 = pyLower u2 →
        Models.task_id hash u1 = Models.task_id hash u2) ∧
    (∀ (hash : List Char → List Char) (u f : List Char),
        pyStrip (pyLower u) = pyLower u →
        Models.task_id hash (u ++ '#' :: f) = Models.task_id hash u) ∧
    (∀ (hash : List Char → List Char) (u : List Char),
        pyStrip (pyLower u) = pyLower u →
        '#' ∉ pyLower u → '?' ∉ pyLower u → ';' ∉ pyLower u →
        (pyUrlparse (pyLower u)).path ≠ [] →
        (pyUrlparse (pyLower u)).path ≠ ['/'] →
        Models.task_id hash (u ++ ['/']) = Models.task_id hash u) := by
  refine ⟨?_, ?_, ?_, ?_⟩
  · intro hash u1 u2 h
    unfold Models.task_id
    rw [h]
  · intro hash u1 u2 h
    unfold Models.task_id Models.normalize_url
    rw [h]
  · intro hash u f h
    unfold Models.task_id
    rw [models_normalize_append_hash h]
  · intro hash u h hh hq hsemi hp1 hp2
    unfold Models.task_id
    rw [models_normalize_append_slash h hh hq hsemi hp1 hp2]

/-- Witness for C8: concrete instances of all four parts, on the URL
`https://ex.com/people` with a fragment, a case change, and a trailing
slash, each hypothesis discharged by evaluation. -/
theorem task_id_normalization_witness :
    Models.task_id id "https://ex.com/people#top".data
      = Models.task_id id "https://ex.com/people".data ∧
    Models.task_id id "HTTPS://Ex.com/People".data
      = Models.task_id id "https://ex.com/people".data ∧
    Models.task_id id "https://ex.com/people/".data
      = Models.task_id id "https://ex.com/people".data ∧
    Models.task_id id "https://ex.com/people".data
      = Models.task_id id "https://ex.com/people#top".data := by
  have h1 : Models.task_id id ("https://ex.com/people".data ++ '#' :: "top".data)
      = Models.task_id id "https://ex.com/people".data :=
    task_id_normalization.2.2.1 id "https://ex.com/people".data "top".data (by decide)
  have he1 : "https://ex.com/people#top".data
      = "https://ex.com/people".data ++ '#' :: "top".data := by decide
  have h2 := task_id_normalization.2.1 id "HTTPS://Ex.com/People".data
      "https://ex.com/people".data (by decide)
  have h3 := task_id_normalization.2.2.2 id "https://ex.com/people".data
      (by decide) (by decide) (by decide) (by decide) (by decide) (by decide)
  have he3 : "https://ex.com/people/".data
      = "https://ex.com/people".data ++ ['/'] := by decide
  have h4 := task_id_normalization.1 id "https://ex.com/people".data
      "https://ex.com/people#top".data (by decide)
  exact ⟨he1 ▸ h1, h2, he3 ▸ h3, h4⟩

/-- Claim C10 counterexample: the two URL normalizers of the codebase
disagree on the URL `http://example.com` (empty path), so they are not the
same function. -/
theorem normalize_url_agreement_counterexample :
    Utils.normalize_url "http://example.com".data
      ≠ Models.normalize_url "http://example.com".data := by decide

/-- Claim C2 counterexample: on a page exposing both an `h1` heading
(`Johnny H. Smith`) and a valid-length schema.org `itemprop="name"` value
(`Jane Doe`), `resolve_name` returns the heading, not the structured-markup
value — the priority order of the claim does not hold. -/
theorem resolve_name_order_counterexample :
    FieldResolvers.nameItempropRule nameOrderTree = some "Jane Doe".data ∧
    FieldResolvers.resolve_name nameOrderTree (textContent nameOrderTree)
      = "Johnny H. Smith".data ∧
    FieldResolvers.resolve_name nameOrderTree (textContent nameOrderTree)
      ≠ "Jane Doe".data :=
  ⟨by decide, by decide, by decide⟩

/-- Claim C2 amended: name resolution tries its rules in the fixed order
primary heading (`h1`), then meta tags (`og:title`, `twitter:title`), then
the schema.org `itemprop="name"` attribute, returning the first value of
length strictly between 3 and 100 characters and the empty string when
every rule fails; the structured-markup value is used only when the
heading and meta rules yield nothing. -/
theorem resolve_name_order_amended :
    (∀ (tree : HNode) (text v : List Char),
        FieldResolvers.nameH1Rule tree = some v →
        FieldResolvers.resolve_name tree text = v) ∧
    (∀ (tree : HNode) (text v : List Char),
        FieldResolvers.nameH1Rule tree = none →
        FieldResolvers.nameMetaRuleGo tree FieldResolvers.nameMetaProps = some v →
        FieldResolvers.resolve_name tree text = v) ∧
    (∀ (tree : HNode) (text v : List Char),
        FieldResolvers.nameH1Rule tree = none →
        FieldResolvers.nameMetaRuleGo tree FieldResolvers.nameMetaProps = none →
        FieldResolvers.nameItempropRule tree = some v →
        FieldResolvers.resolve_name tree text = v) ∧
    (∀ (tree : HNode) (text : List Char),
        FieldResolvers.nameH1Rule tree = none →
        FieldResolvers.nameMetaRuleGo tree FieldResolvers.nameMetaProps = none →
        FieldResolvers.nameItempropRule tree = none →
        FieldResolvers.resolve_name tree text = []) := by
  refine ⟨?_, ?_, ?_, ?_⟩
  · intro tree text v h
    unfold FieldResolvers.resolve_name
    rw [h]
  · intro tree text v h1 h2
    unfold FieldResolvers.resolve_name
    rw [h1, h2]
  · intro tree text v h1 h2 h3
    unfold FieldResolvers.resolve_name
    rw [h1, h2, h3]
  · intro tree text h1 h2 h3
    unfold FieldResolvers.resolve_name
    rw [h1, h2, h3]

/-- Witness for the amended C2: the heading wins on the two-source page,
and the item property is used when it is the only source. -/
theorem resolve_name_order_amended_witness :
    FieldResolvers.resolve_name nameOrderTree (textContent nameOrderTree)
      = "Johnny H. Smith".data ∧
    FieldResolvers.resolve_name nameItempropOnlyTree (textContent nameItempropOnlyTree)
      = "Jane Doe".data :=
  ⟨resolve_name_order_amended.1 nameOrderTree _ _ (by decide),
   resolve_name_order_amended.2.2.1 nameItempropOnlyTree _ _
     (by decide) (by decide) (by decide)⟩

/-- Claim C3 counterexample: on a page whose `itemprop="jobTitle"` text
equals its resolved name, `resolve_title` returns a non-empty value equal
(case-insensitively, in fact literally) to the resolved name. -/
theorem resolve_title_name_counterexample :
    FieldResolvers.resolve_title titleEqualsNameTree (textContent titleEqualsNameTree)
      = "Jane Doe".data ∧
    FieldResolvers.resolve_name titleEqualsNameTree (textContent titleEqualsNameTree)
      = "Jane Doe".data ∧
    FieldResolvers.resolve_title titleEqualsNameTree (textContent titleEqualsNameTree)
      ≠ [] ∧
    pyLower (FieldResolvers.resolve_title titleEqualsNameTree
        (textContent titleEqualsNameTree))
      = pyLower (FieldResolvers.resolve_name titleEqualsNameTree
        (textContent titleEqualsNameTree)) :=
  ⟨by decide, by decide, by decide, by decide⟩

/-- Helper for the amended C3: a non-empty result of the class-pattern
loop is never case-insensitively equal to the name it was guarded
against. -/
theorem titleClassLoop_ne_name (tree : HNode) (name : List Char) :
    ∀ sels, FieldResolvers.titleClassLoop tree name sels ≠ [] →
      pyLower (FieldResolvers.titleClassLoop tree name sels) ≠ pyLower name := by
  intro sels
  induction sels with
  | nil =>
    intro h
    exact absurd rfl h
  | cons sel rest ih =>
    intro hne
    cases hcf : cssFirst sel tree with
    | none =>
      simp only [FieldResolvers.titleClassLoop, hcf] at hne ⊢
      exact ih hne
    | some node =>
      simp only [FieldResolvers.titleClassLoop, hcf] at hne ⊢
      by_cases hcond : (!(clean_text (textContent node)).isEmpty &&
          decide ((clean_text (textContent node)).length < 200) &&
          (pyLower (clean_text (textContent node)) != pyLower name)) = true
      · rw [if_pos hcond] at hne ⊢
        have h3 : (pyLower (clean_text (textContent node)) != pyLower name) = true := by
          obtain ⟨-, h3⟩ := Bool.and_eq_true .. ▸ hcond
          exact h3
        exact bne_iff_ne.mp h3
      · rw [if_neg hcond] at hne ⊢
        exact ih hne

/-- Claim C3 amended: the name-inequality guard protects only the
class-pattern rules: whenever no `itemprop="jobTitle"` value is present,
a non-empty resolved title is never case-insensitively equal to the
resolved name; a `jobTitle` item property, by contrast, is returned
without that check (see the counterexample). -/
theorem resolve_title_class_guard :
    ∀ (tree : HNode) (text : List Char),
      FieldResolvers.titleJobTitleRule tree = none →
      FieldResolvers.resolve_title tree text ≠ [] →
      pyLower (FieldResolvers.resolve_title tree text)
        ≠ pyLower (FieldResolvers.resolve_name tree text) := by
  intro tree text hjob hne
  unfold FieldResolvers.resolve_title at hne ⊢
  rw [hjob] at hne ⊢
  exact titleClassLoop_ne_name tree _ _ hne

/-- Witness for the amended C3: a class-pattern title distinct from the
name on a page with no `jobTitle` item property. -/
theorem resolve_title_class_guard_witness :
    pyLower (FieldResolvers.resolve_title titleClassTree (textContent titleClassTree))
      ≠ pyLower (FieldResolvers.resolve_name titleClassTree (textContent titleClassTree)) :=
  resolve_title_class_guard titleClassTree (textContent titleClassTree)
    (by decide) (by decide)

/-- Claim C9: field resolution is total: `resolve_all_fields` returns one
entry per standard field (name, email, phone, title, bio, page_url, org,
location) in source order, looking up any standard field always succeeds,
and a page with no resolvable content yields empty values (with `page_url`
falling back to the fetched URL) rather than an error. -/
theorem resolve_all_fields_total :
    (∀ (tree : HNode) (page_url : List Char),
        (resolve_all_fields tree page_url).map Prod.fst = standardFields) ∧
    (∀ (tree : HNode) (page_url f : List Char), f ∈ standardFields →
        ∃ v, getAttr (resolve_all_fields tree page_url) f = some v) ∧
    (∀ page_url : List Char,
        resolve_all_fields (HNode.elem "html".data [] HForest.nil) page_url =
          [("name".data, []), ("email".data, []), ("phone".data, []),
           ("title".data, []), ("bio".data, []), ("page_url".data, page_url),
           ("org".data, []), ("location".data, [])]) := by
  refine ⟨?_, ?_, ?_⟩
  · intro tree page_url
    rfl
  · intro tree page_url f hf
    simp only [standardFields, List.mem_cons, List.not_mem_nil, or_false] at hf
    rcases hf with rfl | rfl | rfl | rfl | rfl | rfl | rfl | rfl
    · exact ⟨_, rfl⟩
    · exact ⟨_, rfl⟩
    · exact ⟨_, rfl⟩
    · exact ⟨_, rfl⟩
    · exact ⟨_, rfl⟩
    · exact ⟨_, rfl⟩
    · exact ⟨_, rfl⟩
    · exact ⟨_, rfl⟩
  · intro page_url
    rfl

/-- Witness for C9: looking up the email field on a concrete detail page
succeeds. -/
theorem resolve_all_fields_total_witness :
    ∃ v, getAttr (resolve_all_fields exampleDetailTree
        "http://x.com/people/jane".data) "email".data = some v :=
  resolve_all_fields_total.2.1 exampleDetailTree
    "http://x.com/people/jane".data "email".data (by decide)

/-- Claim C10 amended: `utils.normalize_url` and `models.normalize_url`
agree on typical path-bearing URLs but are distinct functions:
`models.normalize_url` rebuilds the URL through `urlunparse`, which adds a
root slash to a host-only URL and collapses a trailing slash even before a
query string, while `utils.normalize_url` string-strips and leaves such
URLs unchanged. -/
theorem normalize_url_divergence :
    Utils.normalize_url "http://example.com".data = "http://example.com".data ∧
    Models.normalize_url "http://example.com".data = "http://example.com/".data ∧
    Utils.normalize_url "http://example.com/a/?q=1".data
      = "http://example.com/a/?q=1".data ∧
    Models.normalize_url "http://example.com/a/?q=1".data
      = "http://example.com/a?q=1".data ∧
    Utils.normalize_url "http://Example.com/People/#top".data
      = Models.normalize_url "http://Example.com/People/#top".data := by
  exact ⟨by decide, by decide, by decide, by decide, by decide⟩

/-- Claim C4: pagination strategy detection is first-match-wins in the
order NEXT_LINK, NUMBERED, INFINITE_SCROLL (load-more control), CURSOR,
NONE; in particular a `rel="next"` link yields NEXT_LINK regardless of any
numbered container also present. -/
theorem detect_strategy_precedence :
    ∀ (base_url : List Char) (tree : HNode),
      (PaginationDetector.hasNextRelLink tree = true →
        PaginationDetector.detect_strategy base_url tree = .NEXT_LINK) ∧
      (PaginationDetector.hasNextRelLink tree = false →
        PaginationDetector.has_numbered_pagination tree = true →
        PaginationDetector.detect_strategy base_url tree = .NUMBERED) ∧
      (PaginationDetector.hasNextRelLink tree = false →
        PaginationDetector.has_numbered_pagination tree = false →
        PaginationDetector.hasLoadMore tree = true →
        PaginationDetector.detect_strategy base_url tree = .INFINITE_SCROLL) ∧
      (PaginationDetector.hasNextRelLink tree = false →
        PaginationDetector.has_numbered_pagination tree = false →
        PaginationDetector.hasLoadMore tree = false →
        PaginationDetector.hasCursorParam base_url = true →
        PaginationDetector.detect_strategy base_url tree = .CURSOR) ∧
      (PaginationDetector.hasNextRelLink tree = false →
        PaginationDetector.has_numbered_pagination tree = false →
        PaginationDetector.hasLoadMore tree = false →
        PaginationDetector.hasCursorParam base_url = false →
        PaginationDetector.detect_strategy base_url tree = .NONE) := by
  intro base_url tree
  refine ⟨?_, ?_, ?_, ?_, ?_⟩
  · intro h1
    simp [PaginationDetector.detect_strategy, h1]
  · intro h1 h2
    simp [PaginationDetector.detect_strategy, h1, h2]
  · intro h1 h2 h3
    simp [PaginationDetector.detect_strategy, h1, h2, h3]
  · intro h1 h2 h3 h4
    simp [PaginationDetector.detect_strategy, h1, h2, h3, h4]
  · intro h1 h2 h3 h4
    simp [PaginationDetector.detect_strategy, h1, h2, h3, h4]

/-- Witness for C4: a page exposing both a numbered container and a
`rel="next"` link classifies as NEXT_LINK. -/
theorem detect_strategy_precedence_witness :
    PaginationDetector.has_numbered_pagination paginationBothTree = true ∧
    PaginationDetector.detect_strategy "http://site.com/people".data paginationBothTree
      = .NEXT_LINK :=
  ⟨by decide,
   (detect_strategy_precedence "http://site.com/people".data paginationBothTree).1
     (by decide)⟩

/-- Claim C1 counterexample: a permanent 404 response raises
`httpx.HTTPStatusError`, which is an `httpx.HTTPError` and therefore
matches the retry predicate, so the fetch is retried to the full 3
attempts instead of propagating immediately (1 attempt). -/
theorem fetch_retry_counterexample :
    (fetchWithRetry const404Outcomes).2 = 3 ∧
    attemptResult (const404Outcomes 1) = .error (.httpStatusError 404) ∧
    isRetryableError (.httpStatusError 404) = true ∧
    (fetchWithRetry const404Outcomes).2 ≠ 1 :=
  ⟨rfl, rfl, rfl, by decide⟩

/-- Bounds of the tenacity loop: with `fuel` attempts allowed starting at
number `attempt`, the loop performs between `attempt` and
`attempt + fuel - 1` attempts. -/
theorem retryGo_attempt_bounds (outcomes : Nat → FetchOutcome) :
    ∀ (fuel attempt : Nat), 1 ≤ fuel →
      attempt ≤ (retryGo outcomes fuel attempt).2 ∧
      (retryGo outcomes fuel attempt).2 ≤ attempt + fuel - 1 := by
  intro fuel
  induction fuel with
  | zero => intro attempt h; omega
  | succ n ih =>
    intro attempt h
    show attempt ≤ (retryGo outcomes (n + 1) attempt).2 ∧ _
    rw [retryGo]
    cases attemptResult (outcomes attempt) with
    | ok v => dsimp only; omega
    | error e =>
      dsimp only
      by_cases hc : isRetryableError e = true ∧ n ≠ 0
      · rw [if_pos hc]
        have hn : 1 ≤ n := Nat.one_le_iff_ne_zero.mpr hc.2
        have := ih (attempt + 1) hn
        omega
      · rw [if_neg hc]
        dsimp only
        omega

/-- Claim C1 amended: the fetch makes at most 3 attempts (at least 1); a
first-attempt exception that is neither an `httpx.HTTPError` nor an
`asyncio.TimeoutError` propagates immediately after a single attempt; a
first-attempt exception matching the predicate — which includes every
4xx/5xx `HTTPStatusError`, transport errors and timeouts — is retried (at
least a second attempt runs); a successful first attempt returns at
once. -/
theorem fetch_retry_amended :
    (∀ outcomes : Nat → FetchOutcome,
        1 ≤ (fetchWithRetry outcomes).2 ∧ (fetchWithRetry outcomes).2 ≤ 3) ∧
    (∀ (outcomes : Nat → FetchOutcome) (e : PyError),
        attemptResult (outcomes 1) = .error e → isRetryableError e = false →
        fetchWithRetry outcomes = (.error e, 1)) ∧
    (∀ (outcomes : Nat → FetchOutcome) (e : PyError),
        attemptResult (outcomes 1) = .error e → isRetryableError e = true →
        2 ≤ (fetchWithRetry outcomes).2) ∧
    (∀ (outcomes : Nat → FetchOutcome) (v : List Char × Nat),
        attemptResult (outcomes 1) = .ok v →
        fetchWithRetry outcomes = (.ok v, 1)) := by
  refine ⟨?_, ?_, ?_, ?_⟩
  · intro outcomes
    have := retryGo_attempt_bounds outcomes 3 1 (by omega)
    unfold fetchWithRetry
    omega
  · intro outcomes e h hr
    unfold fetchWithRetry
    rw [retryGo, h]
    dsimp only
    rw [if_neg (by simp [hr])]
  · intro outcomes e h hr
    unfold fetchWithRetry
    rw [retryGo, h]
    dsimp only
    rw [if_pos ⟨hr, by omega⟩]
    have h2 := retryGo_attempt_bounds outcomes 2 (1 + 1) (by omega)
    omega
  · intro outcomes v h
    unfold fetchWithRetry
    rw [retryGo, h]

/-- Witness for the amended C1: a success returns after 1 attempt; a
non-retryable exception propagates after 1 attempt; a 404 is retried. -/
theorem fetch_retry_amended_witness :
    1 ≤ (fetchWithRetry okOutcomes).2 ∧
    fetchWithRetry otherErrorOutcomes = (.error .otherError, 1) ∧
    2 ≤ (fetchWithRetry const404Outcomes).2 ∧
    fetchWithRetry okOutcomes = (.ok ("ok".data, 200), 1) :=
  ⟨(fetch_retry_amended.1 okOutcomes).1,
   fetch_retry_amended.2.1 otherErrorOutcomes .otherError rfl rfl,
   fetch_retry_amended.2.2.1 const404Outcomes (.httpStatusError 404) rfl rfl,
   fetch_retry_amended.2.2.2 okOutcomes ("ok".data, 200) rfl⟩

/-- Updating a different key leaves a lookup unchanged. -/
theorem getAttr_dictSet_ne {k f : List Char} (hne : k ≠ f) :
    ∀ (r : List (List Char × List Char)) (v : List Char),
      getAttr (dictSet r k v) f = getAttr r f := by
  intro r
  induction r with
  | nil =>
    intro v
    simp [dictSet, getAttr, hne]
  | cons p rest ih =>
    intro v
    obtain ⟨k2, v2⟩ := p
    by_cases h2 : k2 = k
    · subst h2
      simp only [dictSet, if_pos rfl, getAttr]
      rw [if_neg hne, if_neg hne]
    · simp only [dictSet, if_neg h2, getAttr]
      by_cases h3 : k2 = f
      · rw [if_pos h3, if_pos h3]
      · rw [if_neg h3, if_neg h3, ih]

/-- The overlay fold of `hybrid_extract` never changes a key outside the
overlaid field list. -/
theorem foldl_overlay_preserves (d : List (List Char × List Char))
    (f v : List Char) :
    ∀ (fields : List (List Char)) (r : List (List Char × List Char)),
      getAttr r f = some v → (∀ k ∈ fields, k ≠ f) →
      getAttr (fields.foldl (fun r2 fn =>
          if !(dictGet d fn).isEmpty then dictSet r2 fn (dictGet d fn) else r2) r) f
        = some v := by
  intro fields
  induction fields with
  | nil =>
    intro r h _
    exact h
  | cons k rest ih =>
    intro r h hk
    rw [List.foldl_cons]
    refine ih _ ?_ (fun k2 hk2 => hk k2 (List.mem_cons_of_mem k hk2))
    by_cases hd : (!(dictGet d k).isEmpty) = true
    · rw [if_pos hd, getAttr_dictSet_ne (hk k (List.mem_cons_self k rest))]
      exact h
    · rw [if_neg hd]
      exact h

/-- Claim C6: hybrid extraction never changes a field the heuristics
already populated with a non-empty value, and when the augmenter is
unavailable (not configured or disabled) or returns nothing, the result
is the heuristic record unchanged — with no failure raised (the function
is total). -/
theorem hybrid_extract_frame :
    (∀ (schema : RecordSchema) (llm_enabled : Bool)
        (llm_data : Option (List (List Char × List Char)))
        (heuristic_data : List (List Char × List Char)) (f v : List Char),
        getAttr heuristic_data f = some v → v ≠ [] →
        getAttr (hybrid_extract schema llm_enabled llm_data heuristic_data) f
          = some v) ∧
    (∀ (schema : RecordSchema) (llm_data : Option (List (List Char × List Char)))
        (heuristic_data : List (List Char × List Char)),
        hybrid_extract schema false llm_data heuristic_data = heuristic_data) ∧
    (∀ (schema : RecordSchema) (llm_enabled : Bool)
        (heuristic_data : List (List Char × List Char)),
        hybrid_extract schema llm_enabled none heuristic_data = heuristic_data) := by
  refine ⟨?_, ?_, ?_⟩
  · intro schema en data heur f v hf hv
    unfold hybrid_extract
    dsimp only
    split
    · cases data with
      | none => exact hf
      | some d =>
        dsimp only
        split
        · exact hf
        · refine foldl_overlay_preserves d f v _ heur hf ?_
          intro k hkmem
          simp only [List.mem_map, List.mem_filter] at hkmem
          obtain ⟨fld, ⟨-, hpred⟩, rfl⟩ := hkmem
          obtain ⟨-, hempty⟩ := Bool.and_eq_true .. ▸ hpred
          intro heq
          rw [heq] at hempty
          have : dictGet heur f = v := by
            unfold dictGet
            rw [hf]
            rfl
          rw [this] at hempty
          exact hv (List.isEmpty_iff.mp hempty)
    · exact hf
  · intro schema data heur
    unfold hybrid_extract
    dsimp only
    rw [if_neg (fun hcon => Bool.false_ne_true hcon.2)]
  · intro schema en heur
    unfold hybrid_extract
    dsimp only
    split
    · rfl
    · rfl

/-- Witness for C6: with a required `title` missing, the augmenter overlay
runs and fills it, yet the heuristically populated `name` is preserved. -/
theorem hybrid_extract_frame_witness :
    getAttr (hybrid_extract exampleSchema true
        (some [("name".data, "Robot".data), ("title".data, "Prof".data)])
        [("name".data, "Jane".data)]) "name".data = some "Jane".data ∧
    hybrid_extract exampleSchema false
        (some [("name".data, "Robot".data)]) [("name".data, "Jane".data)]
      = [("name".data, "Jane".data)] ∧
    hybrid_extract exampleSchema true none [("name".data, "Jane".data)]
      = [("name".data, "Jane".data)] :=
  ⟨hybrid_extract_frame.1 exampleSchema true
      (some [("name".data, "Robot".data), ("title".data, "Prof".data)])
      [("name".data, "Jane".data)] "name".data "Jane".data (by decide) (by decide),
   hybrid_extract_frame.2.1 exampleSchema (some [("name".data, "Robot".data)])
      [("name".data, "Jane".data)],
   hybrid_extract_frame.2.2 exampleSchema true [("name".data, "Jane".data)]⟩

/-- The dedup loop is idempotent for every starting seen-set. -/
theorem dedupGo_idem (key_fields : List (List Char)) :
    ∀ (records : List (List (List Char × List Char))) (seen : List (List Char)),
      dedupGo key_fields seen (dedupGo key_fields seen records)
        = dedupGo key_fields seen records := by
  intro records
  induction records with
  | nil =>
    intro seen
    rfl
  | cons r rest ih =>
    intro seen
    cases hk : recordKey key_fields r with
    | none =>
      simp only [dedupGo, hk]
      rw [ih seen]
    | some k =>
      by_cases hs : k ∈ seen
      · simp only [dedupGo, hk, if_pos hs]
        exact ih seen
      · simp only [dedupGo, hk, if_neg hs]
        rw [ih (k :: seen)]

/-- Claim C7: deduplication is idempotent: for every record list and every
choice of key fields, applying `deduplicate_records` to its own output
returns that output unchanged. -/
theorem deduplicate_records_idempotent :
    ∀ (records : List (List (List Char × List Char)))
      (key_fields : List (List Char)),
      deduplicate_records (deduplicate_records records key_fields) key_fields
        = deduplicate_records records key_fields := by
  intro records key_fields
  exact dedupGo_idem key_fields records []

/-- Claim C5: with politeness-policy checking enabled and the policy check
denying the start URL, the run returns at once: the metadata equals the
initial metadata with only the explanatory policy error appended —
`pages_fetched = 0` and the Fetcher never invoked — for every possible
crawl body. -/
theorem robots_gate_preflight :
    ∀ crawlPhase : RunState → RunState,
      ScraperPipeline.run true false crawlPhase initialRunState
        = { initialRunState with errors := ["Disallowed by robots.txt".data] } ∧
      (ScraperPipeline.run true false crawlPhase initialRunState).pages_fetched = 0 ∧
      (ScraperPipeline.run true false crawlPhase initialRunState).fetcher_calls = 0 ∧
      "Disallowed by robots.txt".data
        ∈ (ScraperPipeline.run true false crawlPhase initialRunState).errors := by
  intro crawlPhase
  refine ⟨rfl, rfl, rfl, ?_⟩
  show "Disallowed by robots.txt".data ∈
    (ScraperPipeline.run true false crawlPhase initialRunState).errors
  simp [ScraperPipeline.run, initialRunState]

end Scraper
